import Mathlib

/-!
# Verification of the fslpy reactive value framework

A shallow embedding of `fsl/props/properties_value.py` (`PropertyValue`,
`PropertyValueList`) and of the bounded list wrapper `_ListWrapper` from
`tkprop/properties.py`, together with proofs about the cast / validate /
compare / notify pipeline, the parallel raw-value / child-item lists, and
the structural length bounds.

Python values are modelled by the inductive `PyVal` (closed under lists,
with a first-class `none`), Python `ValueError` / `IndexError` /
`TypeError` by `PyErr`, and each method of the source classes by a pure
function from an explicit state to a new state, a list of emitted
listener-call events, and an optional raised error.  A raised error is
returned together with the state as mutated up to the point of the raise,
so atomicity ("no state change on error") is a provable property, not a
modelling artefact.
-/

/-- A Python value: `None`, an int, a string, or a list of values.
Lists are represented by their own cons cells (`nil` / `cons`) so that
equality is plainly structural; the value universe must be closed under
lists because the int-key branch of `PropertyValueList.__setitem__`
stores a singleton *list* into the raw value sequence. -/
inductive PyVal where
  | none
  | int (n : Int)
  | str (s : String)
  | nil
  | cons (hd tl : PyVal)
deriving DecidableEq, Repr

/-- View a Lean list of values as a Python list value. -/
def PyVal.ofList (xs : List PyVal) : PyVal :=
  xs.foldr PyVal.cons PyVal.nil

/-- View a Python value as a Lean list when it is a list
(`Option.none` when it is not a sequence). -/
def PyVal.toListOpt : PyVal → Option (List PyVal)
  | .nil => some []
  | .cons h t =>
    match t.toListOpt with
    | some xs => some (h :: xs)
    | Option.none => Option.none
  | _ => Option.none

/-- Python `==` on `PyVal` (structural equality; list equality is
elementwise, as in Python). -/
def pyEq (a b : PyVal) : Bool :=
  a == b

theorem pyEq_refl (a : PyVal) : pyEq a a = true := by
  simp [pyEq]

/-- The Python exceptions raised by this code:
`ValueError` (validation, bad slice shapes), `IndexError` (bad indices,
length bounds in `_ListWrapper`), `TypeError`. -/
inductive PyErr where
  | valueError (msg : String)
  | indexError (msg : String)
  | typeError (msg : String)
deriving DecidableEq, Repr

/-- `map(f, xs)` over a fallible `f` (Python 2 `map` is eager; the first
raised error propagates). -/
def exceptMapM {γ δ : Type} (f : γ → Except PyErr δ) : List γ → Except PyErr (List δ)
  | [] => .ok []
  | a :: as =>
    match f a with
    | .error e => .error e
    | .ok b =>
      match exceptMapM f as with
      | .error e => .error e
      | .ok bs => .ok (b :: bs)

/-- What a registered listener does when called: it may raise (the raise
is caught and logged by `_notify`), and it may call `addListener` /
`removeListener` on the object that is notifying it.  An added listener
is described by its `raises` flag (and performs no registry actions of
its own). -/
inductive RegAction where
  | add (name : String) (raises : Bool)
  | remove (name : String)
deriving DecidableEq, Repr

/-- Behaviour of one listener callback (data, so that dispatch is
executable). -/
structure ListenerSpec where
  raises : Bool
  actions : List RegAction
deriving DecidableEq, Repr

/-- `self._changeListeners`: an insertion-ordered mapping (Python
`OrderedDict`) from listener name to callback. -/
abbrev Registry := List (String × ListenerSpec)

/-- `OrderedDict` assignment `d[k] = v`: an existing key keeps its
position and gets the new value; a new key is appended. -/
def odSet (reg : Registry) (k : String) (v : ListenerSpec) : Registry :=
  if reg.any (fun p => p.1 == k) then
    reg.map (fun p => if p.1 == k then (k, v) else p)
  else
    reg ++ [(k, v)]

/-- `OrderedDict.pop(k, None)`: removes the key if present. -/
def odRemove (reg : Registry) (k : String) : Registry :=
  reg.filter (fun p => p.1 != k)

/-- The name mangling in `addListener` / `removeListener`:
`'PropertyValue_{}_{}'.format(self._name, name)`. -/
def mangle (pvName listenerName : String) : String :=
  "PropertyValue_" ++ pvName ++ "_" ++ listenerName

/-- Apply one registry action performed by a listener during dispatch. -/
def applyAction (pvName : String) (reg : Registry) : RegAction → Registry
  | .add n r => odSet reg (mangle pvName n) ⟨r, []⟩
  | .remove n => odRemove reg (mangle pvName n)

/-- The loop body of `PropertyValue._notify`: iterate over the snapshot
`allListeners`, calling each listener in turn.  Each call is wrapped in
`try/except`, so a raising listener is logged (second output component)
and the loop continues.  Listeners may mutate the live registry (first
output component); the snapshot being iterated is unaffected.  The third
output component is the ordered list of names actually called. -/
def dispatchLoop (pvName : String) :
    List (String × ListenerSpec) → Registry → Registry × List String × List String
  | [], reg => (reg, [], [])
  | (n, spec) :: rest, reg =>
      let reg' := spec.actions.foldl (applyAction pvName) reg
      let (regF, called, logged) := dispatchLoop pvName rest reg'
      (regF, n :: called, if spec.raises then n :: logged else logged)

/-- One listener-call event observed from outside a `PropertyValue`:
the listener `name` was called with `(value, valid, context)`. -/
inductive PVEvent where
  | call (name : String) (value : PyVal) (valid : Bool)
deriving DecidableEq, Repr

/-- The immutable configuration of a `PropertyValue` (the constructor
arguments that the object stores and never rewrites). -/
structure PVConf where
  name : String
  context : PyVal
  castFunc : Option (PyVal → PyVal → Except PyErr PyVal)
  validateFunc : Option (PyVal → PyVal → Option String)
  preNotifyFunc : Option ListenerSpec
  postNotifyFunc : Option ListenerSpec
  allowInvalid : Bool

/-- The mutable state of a `PropertyValue`:
`__value`, `__valid`, `__lastValue`, `__lastValid`, `_changeListeners`.
`__lastValue` is initialised to Python `None` (`PyVal.none`). -/
structure PropertyValue where
  value : PyVal
  valid : Bool
  lastValue : PyVal
  lastValid : Bool
  listeners : Registry

/-- `self._castFunc(self._context, v)` when a cast function is
configured, the identity otherwise. -/
def castApply (cfg : PVConf) (v : PyVal) : Except PyErr PyVal :=
  match cfg.castFunc with
  | Option.none => .ok v
  | some f => f cfg.context v

/-- `self._validate(self._context, v)`: `Option.none` means the validate
function returned normally (or is absent), `some msg` means it raised
`ValueError(msg)`. -/
def validateApply (cfg : PVConf) (v : PyVal) : Option String :=
  match cfg.validateFunc with
  | Option.none => Option.none
  | some f => f cfg.context v

/-- The snapshot `allListeners` built at the top of
`PropertyValue._notify`: the pre-notify hook (if present), then the
items of `_changeListeners`, then the post-notify hook (if present). -/
def notifySnapshot (cfg : PVConf) (reg : Registry) : List (String × ListenerSpec) :=
  (match cfg.preNotifyFunc with
   | Option.none => []
   | some spec => [("PreNotify", spec)]) ++
  reg ++
  (match cfg.postNotifyFunc with
   | Option.none => []
   | some spec => [("PostNotify", spec)])

/-- `PropertyValue._notify`: build the snapshot, then run the dispatch
loop.  Returns the final registry (listeners may have added/removed
entries) and the emitted call events. -/
def PropertyValue.notify (cfg : PVConf) (reg : Registry) (value : PyVal)
    (valid : Bool) : Registry × List PVEvent :=
  let snap := notifySnapshot cfg reg
  let (regF, called, _logged) := dispatchLoop cfg.name snap reg
  (regF, called.map (fun n => PVEvent.call n value valid))

/-- Result of `PropertyValue.set`: the state as left by the call (on a
raise, the state as mutated up to the raise), the listener-call events
emitted, the raised error if any, and whether `self._notify()` was
reached. -/
structure SetResult where
  state : PropertyValue
  events : List PVEvent
  raised : Option PyErr
  notified : Bool

/-- Lines 159-178 of `PropertyValue.set`: the stores of `__value` and
`__valid` (performed even when nothing changed), the change comparison
against `(__lastValue, __lastValid)`, and the notification. -/
def PropertyValue.setStore (cfg : PVConf) (s : PropertyValue) (v : PyVal)
    (valid : Bool) : SetResult :=
  let s1 : PropertyValue := { s with value := v, valid := valid }
  let changed := !(pyEq s1.value s.lastValue) || (s1.valid != s.lastValid)
  if !changed then ⟨s1, [], Option.none, false⟩
  else
    let s2 : PropertyValue := { s1 with lastValue := s1.value, lastValid := s1.valid }
    let (regF, evs) := PropertyValue.notify cfg s2.listeners s2.value s2.valid
    ⟨{ s2 with listeners := regF }, evs, Option.none, true⟩

/-- `PropertyValue.set(newValue)`: cast (errors propagate, nothing
stored), validate (a `ValueError` is caught; with `allowInvalid=False`
it is re-raised before anything is stored), store `(value, valid)`,
compare with `(lastValue, lastValid)`, and notify only on a change. -/
def PropertyValue.set (cfg : PVConf) (s : PropertyValue) (newValue : PyVal) :
    SetResult :=
  match castApply cfg newValue with
  | .error e => ⟨s, [], some e, false⟩
  | .ok v =>
    match validateApply cfg v with
    | some msg =>
      if !cfg.allowInvalid then ⟨s, [], some (.valueError msg), false⟩
      else PropertyValue.setStore cfg s v false
    | Option.none => PropertyValue.setStore cfg s v true

/-- `PropertyValue.__init__`: the initial value is cast if a cast
function is given (errors propagate out of the constructor); `__valid`
starts `False`, `__lastValue` starts `None`, `__lastValid` starts
`False`, and no listeners are registered. -/
def PropertyValue.mk0 (cfg : PVConf) (value : PyVal) : Except PyErr PropertyValue :=
  match castApply cfg value with
  | .error e => .error e
  | .ok v => .ok ⟨v, false, PyVal.none, false, []⟩

/-- `PropertyValue.addListener(name, callback)`. -/
def PropertyValue.addListener (cfg : PVConf) (s : PropertyValue)
    (name : String) (spec : ListenerSpec) : PropertyValue :=
  { s with listeners := odSet s.listeners (mangle cfg.name name) spec }

/-- `PropertyValue.removeListener(name)`. -/
def PropertyValue.removeListener (cfg : PVConf) (s : PropertyValue)
    (name : String) : PropertyValue :=
  { s with listeners := odRemove s.listeners (mangle cfg.name name) }

/-- `PropertyValue.isValid`: `try: self._validate(self._context,
self.get()) / except: return False / return True`.  When no validate
function was configured, `self._validate` is `None` and calling it
raises a `TypeError`, which the bare `except` swallows: the method
returns `False`. -/
def PropertyValue.isValid (cfg : PVConf) (s : PropertyValue) : Bool :=
  match cfg.validateFunc with
  | Option.none => false
  | some f => (f cfg.context s.value).isNone

/-- `PropertyValue.revalidate`: `self.set(self.get())`. -/
def PropertyValue.revalidate (cfg : PVConf) (s : PropertyValue) : SetResult :=
  PropertyValue.set cfg s s.value

/-! ## Python list primitives

Helpers mirroring the built-in `list` operations used by
`PropertyValueList` and `_ListWrapper`: `pop`, `insert`, item/slice
indexing with Python's negative-index and clamping rules, and
`slice.indices`. -/

/-- Remove the element at (already normalised) position `i`. -/
def removeAt : List α → Nat → List α
  | [], _ => []
  | _ :: xs, 0 => xs
  | x :: xs, n + 1 => x :: removeAt xs n

theorem removeAt_length {l : List α} {i : Nat} (h : i < l.length) :
    (removeAt l i).length = l.length - 1 := by
  induction l generalizing i with
  | nil => simp at h
  | cons x xs ih =>
    cases i with
    | zero => simp [removeAt]
    | succ n =>
      simp only [removeAt, List.length_cons]
      rw [ih (by simpa using h)]
      have : 1 ≤ xs.length := by
        have := Nat.lt_of_succ_lt_succ (by simpa using h)
        omega
      omega

/-- Bounds test shared by index normalisation. -/
def pyNormIdxAux (j : Int) (n : Nat) : Except PyErr Nat :=
  if 0 ≤ j ∧ j < n then .ok j.toNat
  else .error (.indexError "list index out of range")

/-- Normalise a Python index against a sequence length: negative indices
count from the end; an out-of-range index is an `IndexError`. -/
def pyNormIdx (i : Int) (n : Nat) : Except PyErr Nat :=
  pyNormIdxAux (if i < 0 then i + n else i) n

/-- Python `list.pop(i)`: returns the removed element and the remaining
list, or an `IndexError`. -/
def pyPop (l : List α) (i : Int) : Except PyErr (α × List α) :=
  match pyNormIdx i l.length with
  | .error e => .error e
  | .ok k =>
    match l.get? k with
    | some x => .ok (x, removeAt l k)
    | Option.none => .error (.indexError "list index out of range")

/-- Python `list.insert(i, x)`: the insertion point is clamped into
`[0, len]`; negative indices count from the end. -/
def pyInsert (l : List α) (i : Int) (x : α) : List α :=
  let n : Int := l.length
  let j : Int := if i < 0 then max 0 (i + n) else min i n
  let k := j.toNat
  l.take k ++ x :: l.drop k

theorem pyInsert_length (l : List α) (i : Int) (x : α) :
    (pyInsert l i x).length = l.length + 1 := by
  unfold pyInsert
  have hk : (if i < 0 then max 0 (i + l.length) else min i (l.length : Int)).toNat
      ≤ l.length := by
    split <;> omega
  simp only [List.length_append, List.length_cons, List.length_take, List.length_drop]
  omega

theorem pyNormIdxAux_lt {j : Int} {n k : Nat} (h : pyNormIdxAux j n = .ok k) :
    k < n := by
  unfold pyNormIdxAux at h
  split at h
  · rename_i hc
    injection h with h'
    omega
  · cases h

theorem pyNormIdx_lt {i : Int} {n k : Nat} (h : pyNormIdx i n = .ok k) :
    k < n :=
  pyNormIdxAux_lt h

theorem pyPop_length {l : List α} {i : Int} {x : α} {r : List α}
    (h : pyPop l i = .ok (x, r)) : r.length + 1 = l.length := by
  unfold pyPop at h
  split at h
  · cases h
  · rename_i k hN
    split at h
    · rename_i y hy
      simp only [Except.ok.injEq, Prod.mk.injEq] at h
      obtain ⟨rfl, rfl⟩ := h
      have hk := pyNormIdx_lt hN
      rw [removeAt_length hk]
      omega
    · cases h

/-- If `pyPop` succeeds on one list, it succeeds on any list of the same
length (the index test depends only on the length). -/
theorem pyPop_ok_of_length (l : List α) (l' : List β) {i : Int} {x : α}
    {r : List α} (hlen : l'.length = l.length) (h : pyPop l i = .ok (x, r)) :
    ∃ y r', pyPop l' i = .ok (y, r') := by
  unfold pyPop at h ⊢
  rw [hlen]
  split at h
  · cases h
  · rename_i k hN
    have hk : k < l'.length := hlen ▸ pyNormIdx_lt hN
    obtain ⟨y, hy⟩ : ∃ y, l'.get? k = some y := by
      cases hg : l'.get? k with
      | none => rw [List.get?_eq_none] at hg; omega
      | some y => exact ⟨y, rfl⟩
    refine ⟨y, removeAt l' k, ?_⟩
    rw [hy]

/-- Pointwise assignment `l[i] := v` for each `(i, v)` pair, in order.
For Python slice assignment under the equal-length guard of
`PropertyValueList.__setitem__`, assignment at the selected indices is
exactly what the interpreter does. -/
def assignAt (l : List α) (ps : List (Nat × α)) : List α :=
  ps.foldl (fun acc p => acc.set p.1 p.2) l

theorem assignAt_length (l : List α) (ps : List (Nat × α)) :
    (assignAt l ps).length = l.length := by
  induction ps generalizing l with
  | nil => rfl
  | cons p ps ih =>
    unfold assignAt at ih ⊢
    simp only [List.foldl_cons]
    rw [ih (l.set p.1 p.2), List.length_set]

/-- Delete the elements of `l` whose position (counted from `p`) appears
in `idxs`. -/
def deleteAtIdxs : List α → Nat → List Nat → List α
  | [], _, _ => []
  | x :: xs, p, idxs =>
    if idxs.contains p then deleteAtIdxs xs (p + 1) idxs
    else x :: deleteAtIdxs xs (p + 1) idxs

/-- The length of `deleteAtIdxs` depends only on the length of the input
list (and on `p`, `idxs`). -/
theorem deleteAtIdxs_length_congr (l : List α) (l' : List β) (p : Nat)
    (idxs : List Nat) (hlen : l.length = l'.length) :
    (deleteAtIdxs l p idxs).length = (deleteAtIdxs l' p idxs).length := by
  induction l generalizing l' p with
  | nil =>
    have : l' = [] := by
      cases l' <;> simp_all
    subst this
    rfl
  | cons x xs ih =>
    cases l' with
    | nil => simp at hlen
    | cons y ys =>
      simp only [List.length_cons, Nat.succ.injEq] at hlen
      unfold deleteAtIdxs
      split
      · exact ih ys (p + 1) hlen
      · simp [ih ys (p + 1) hlen]

/-- CPython's `slice.indices(n)` followed by `range(*...)`: the list of
selected positions.  A zero step is a `ValueError`. -/
def pySliceIndices (start stop step : Option Int) (n : Nat) :
    Except PyErr (List Nat) :=
  match step with
  | some 0 => .error (.valueError "slice step cannot be zero")
  | _ =>
    let s : Int := (step.getD 1)
    let start' : Int :=
      match start with
      | Option.none => if s > 0 then 0 else (n : Int) - 1
      | some a =>
        let a' := if a < 0 then a + n else a
        if a' < 0 then (if s > 0 then 0 else -1)
        else if a' ≥ n then (if s > 0 then (n : Int) else (n : Int) - 1)
        else a'
    let stop' : Int :=
      match stop with
      | Option.none => if s > 0 then (n : Int) else -1
      | some b =>
        let b' := if b < 0 then b + n else b
        if b' < 0 then (if s > 0 then 0 else -1)
        else if b' ≥ n then (if s > 0 then (n : Int) else (n : Int) - 1)
        else b'
    let count : Nat :=
      if s > 0 then (if start' ≥ stop' then 0 else (((stop' - start' - 1) / s) + 1).toNat)
      else (if start' ≤ stop' then 0 else (((start' - stop' - 1) / (-s)) + 1).toNat)
    .ok ((List.range count).map (fun k => (start' + s * k).toNat))

/-- A Python index or slice argument (`key`) as received by `__setitem__`
and `__delitem__`. -/
inductive PyKey where
  | int (i : Int)
  | slice (start stop step : Option Int)
deriving DecidableEq, Repr

/-! ## PropertyValueList

A `PropertyValueList` *is-a* `PropertyValue` whose `__value` is the raw
value list; alongside it a parallel list `__propVals` of child
`PropertyValue` objects is maintained.  The inherited `PropertyValue`
machinery (cast / validate / compare / notify) is inlined here at the
list level so that the state visible to list listeners during a dispatch
(in particular the lengths of both sequences at that moment) is explicit
in the emitted events. -/

/-- Constructor arguments of `PropertyValueList` that the object stores:
`itemCastFunc`, `itemValidateFunc`, `listValidateFunc` (closed over by
the combined `validateFunc`), `allowInvalid`, and the list-level
notification hooks. -/
structure PVLConf where
  name : String
  context : PyVal
  itemCastFunc : Option (PyVal → PyVal → Except PyErr PyVal)
  itemValidateFunc : Option (PyVal → PyVal → Option String)
  listValidateFunc : Option (PyVal → List PyVal → Option String)
  preNotifyFunc : Option ListenerSpec
  postNotifyFunc : Option ListenerSpec
  allowInvalid : Bool

/-- The mutable state of a `PropertyValueList`: the inherited
`PropertyValue` fields (`__value` is the raw value list, `__lastValue`
starts as Python `None`), plus `__propVals`, the parallel list of child
`PropertyValue` objects. -/
structure PVLState where
  value : List PyVal
  valid : Bool
  lastValue : PyVal
  lastValid : Bool
  listeners : Registry
  propVals : List PropertyValue

/-- A listener call observable on a `PropertyValueList` or on one of its
child items.  `listCall` records the lengths of the raw value list and
of the child item list at the moment of the call — both are readable by
the listener (`len(self)` and `len(self.getPropertyValueList())`). -/
inductive PVLEvent where
  | listCall (name : String) (value : List PyVal) (valid : Bool)
      (rawLen itemsLen : Nat)
  | itemCall (name : String) (value : PyVal) (valid : Bool)
deriving DecidableEq, Repr

/-- Result of a `PropertyValueList` operation: the state as left by the
call (on a raise, as mutated up to the raise), the emitted events, and
the raised error if any. -/
structure PVLRes where
  state : PVLState
  events : List PVLEvent
  raised : Option PyErr

/-- `itemCastFunc(context, v)` when configured, else the identity. -/
def itemCastApply (cfg : PVLConf) (v : PyVal) : Except PyErr PyVal :=
  match cfg.itemCastFunc with
  | Option.none => .ok v
  | some f => f cfg.context v

/-- `itemValidateFunc(context, v)` when configured
(`some msg` = raised `ValueError(msg)`). -/
def itemValidateApply (cfg : PVLConf) (v : PyVal) : Option String :=
  match cfg.itemValidateFunc with
  | Option.none => Option.none
  | some f => f cfg.context v

/-- `listValidateFunc(context, values)` when configured. -/
def listValidateApply (cfg : PVLConf) (vs : List PyVal) : Option String :=
  match cfg.listValidateFunc with
  | Option.none => Option.none
  | some f => f cfg.context vs

/-- The `for value in newValues: itemValidateFunc(context, value)` loop
of the combined validator: the first raised `ValueError` propagates. -/
def firstItemErr (cfg : PVLConf) : List PyVal → Option String
  | [] => Option.none
  | v :: rest =>
    match itemValidateApply cfg v with
    | some e => some e
    | Option.none => firstItemErr cfg rest

/-- The combined `validateFunc` built in `PropertyValueList.__init__`:
validate the list as a whole, then each item separately; the first
raised error propagates. -/
def pvlValidate (cfg : PVLConf) (vs : List PyVal) : Option String :=
  match listValidateApply cfg vs with
  | some e => some e
  | Option.none => firstItemErr cfg vs

/-- The combined `castFunc` built in `PropertyValueList.__init__`:
`map(itemCastFunc, values)` (eager in Python 2; the first raised error
propagates, as `mapM` does). -/
def pvlCast (cfg : PVLConf) (vs : List PyVal) : Except PyErr (List PyVal) :=
  match cfg.itemCastFunc with
  | Option.none => .ok vs
  | some f => exceptMapM (f cfg.context) vs

/-- The `allListeners` snapshot for a list-level `_notify`. -/
def pvlSnapshot (cfg : PVLConf) (reg : Registry) : List (String × ListenerSpec) :=
  (match cfg.preNotifyFunc with
   | Option.none => []
   | some spec => [("PreNotify", spec)]) ++
  reg ++
  (match cfg.postNotifyFunc with
   | Option.none => []
   | some spec => [("PostNotify", spec)])

/-- List-level `_notify`: dispatch over the snapshot; every call event
records the lengths of both parallel sequences at dispatch time. -/
def PropertyValueList.notify (cfg : PVLConf) (reg : Registry)
    (vs : List PyVal) (valid : Bool) (itemsLen : Nat) :
    Registry × List PVLEvent :=
  let snap := pvlSnapshot cfg reg
  let (regF, called, _logged) := dispatchLoop cfg.name snap reg
  (regF, called.map (fun n => PVLEvent.listCall n vs valid vs.length itemsLen))

/-- Lines 159-178 of the inherited `PropertyValue.set`, at the list
level: store `__value`/`__valid`, compare against
`(__lastValue, __lastValid)` (by value, Python `!=`), notify on change.
`__propVals` is untouched. -/
def PropertyValueList.setRawStore (cfg : PVLConf) (s : PVLState)
    (vs : List PyVal) (valid : Bool) : PVLRes :=
  let s1 : PVLState := { s with value := vs, valid := valid }
  let changed := !(pyEq (PyVal.ofList vs) s.lastValue) || (valid != s.lastValid)
  if !changed then ⟨s1, [], Option.none⟩
  else
    let s2 : PVLState := { s1 with lastValue := PyVal.ofList vs, lastValid := valid }
    let (regF, evs) := PropertyValueList.notify cfg s2.listeners vs valid s2.propVals.length
    ⟨{ s2 with listeners := regF }, evs, Option.none⟩

/-- `PropertyValue.set(self, newValues)` as called on a
`PropertyValueList` (the `recreate=False` path of
`PropertyValueList.set`): cast every item, run the combined validator,
store, compare, notify.  `__propVals` is untouched. -/
def PropertyValueList.setRaw (cfg : PVLConf) (s : PVLState)
    (newValues : List PyVal) : PVLRes :=
  match pvlCast cfg newValues with
  | .error e => ⟨s, [], some e⟩
  | .ok vs =>
    match pvlValidate cfg vs with
    | some msg =>
      if !cfg.allowInvalid then ⟨s, [], some (.valueError msg)⟩
      else PropertyValueList.setRawStore cfg s vs false
    | Option.none => PropertyValueList.setRawStore cfg s vs true

/-- `PropertyValueList.__newItem(item)`: encapsulate `item` in a fresh
child `PropertyValue` (cast on construction; `__valid` starts `False`,
`__lastValue` starts `None`, no listeners).  The child's
`postNotifyFunc` is the lambda calling the parent's `revalidate` — that
wiring is inlined at the call sites of the child's `set`. -/
def PropertyValueList.newItem (cfg : PVLConf) (item : PyVal) :
    Except PyErr PropertyValue :=
  match itemCastApply cfg item with
  | .error e => .error e
  | .ok v => .ok ⟨v, false, PyVal.none, false, []⟩

/-- `PropertyValueList.set(newValues, recreate=True)`: run the inherited
`set`, then discard and rebuild all child items from the (un-cast)
argument values. -/
def PropertyValueList.set (cfg : PVLConf) (s : PVLState)
    (newValues : List PyVal) : PVLRes :=
  let r := PropertyValueList.setRaw cfg s newValues
  match r.raised with
  | some _ => r
  | Option.none =>
    match exceptMapM (PropertyValueList.newItem cfg) newValues with
    | .error e => ⟨r.state, r.events, some e⟩
    | .ok items => ⟨{ r.state with propVals := items }, r.events, Option.none⟩

/-- `PropertyValueList.revalidate()`:
`self.set(PropertyValue.get(self), False)` — re-runs the pipeline on the
raw value list currently stored in the parent, without recreating child
items. -/
def PropertyValueList.revalidate (cfg : PVLConf) (s : PVLState) : PVLRes :=
  PropertyValueList.setRaw cfg s s.value

/-- `PropertyValueList.__init__(..., values)`: the parent constructor
runs with `value=None` (the combined cast maps `None` to `None`), then
`self.set(values)` initialises both sequences.  The placeholder fields
of the pre-`set` state are never observable. -/
def PropertyValueList.mk0 (cfg : PVLConf) (values : List PyVal) : PVLRes :=
  PropertyValueList.set cfg ⟨[], false, PyVal.none, false, [], []⟩ values

/-- The store/compare/notify tail of a child item's `set`, with the
parent-`revalidate` post-hook inlined. -/
def PropertyValueList.childStore (cfg : PVLConf) (s : PVLState) (j : Nat)
    (child : PropertyValue) (v' : PyVal) (valid : Bool) : PVLRes :=
  let child1 : PropertyValue := { child with value := v', valid := valid }
  let changed := !(pyEq child1.value child.lastValue) || (child1.valid != child.lastValid)
  if !changed then ⟨{ s with propVals := s.propVals.set j child1 }, [], Option.none⟩
  else
    let child2 : PropertyValue := { child1 with lastValue := v', lastValid := valid }
    let (creg, called, _logged) :=
      dispatchLoop (cfg.name ++ "_Item") child2.listeners child2.listeners
    let child3 : PropertyValue := { child2 with listeners := creg }
    let itemEvs := called.map (fun n => PVLEvent.itemCall n v' valid)
    let sMid : PVLState := { s with propVals := s.propVals.set j child3 }
    let r := PropertyValueList.revalidate cfg sMid
    ⟨r.state, itemEvs ++ r.events, Option.none⟩

/-- A child item's `set(v)`, including the parent wiring: the child is
`self.__propVals[i]`; its own cast/validate/store/compare runs first;
if it notifies, its listeners are called and then its `postNotifyFunc`
— the lambda calling the parent's `revalidate()` — runs last (wrapped in
the dispatch `try/except`, so an error from `revalidate` is logged and
swallowed). -/
def PropertyValueList.childSet (cfg : PVLConf) (s : PVLState) (i : Int)
    (v : PyVal) : PVLRes :=
  match pyNormIdx i s.propVals.length with
  | .error e => ⟨s, [], some e⟩
  | .ok j =>
    match s.propVals.get? j with
    | Option.none => ⟨s, [], some (.indexError "list index out of range")⟩
    | some child =>
      match itemCastApply cfg v with
      | .error e => ⟨s, [], some e⟩
      | .ok v' =>
        match itemValidateApply cfg v' with
        | some msg =>
          if !cfg.allowInvalid then ⟨s, [], some (.valueError msg)⟩
          else PropertyValueList.childStore cfg s j child v' false
        | Option.none => PropertyValueList.childStore cfg s j child v' true

/-- `PropertyValueList.append(item)`: grow the raw list via
`set(..., recreate=False)` (which notifies list listeners *before* the
child list is touched), then create and append the new child item. -/
def PropertyValueList.append (cfg : PVLConf) (s : PVLState) (item : PyVal) :
    PVLRes :=
  let r := PropertyValueList.setRaw cfg s (s.value ++ [item])
  match r.raised with
  | some _ => r
  | Option.none =>
    match PropertyValueList.newItem cfg item with
    | .error e => ⟨r.state, r.events, some e⟩
    | .ok child =>
      ⟨{ r.state with propVals := r.state.propVals ++ [child] }, r.events, Option.none⟩

/-- `PropertyValueList.extend(iterable)`: as `append`, batched — the raw
list is updated and notified first, then all new child items are built
and appended. -/
def PropertyValueList.extend (cfg : PVLConf) (s : PVLState)
    (items : List PyVal) : PVLRes :=
  let r := PropertyValueList.setRaw cfg s (s.value ++ items)
  match r.raised with
  | some _ => r
  | Option.none =>
    match exceptMapM (PropertyValueList.newItem cfg) items with
    | .error e => ⟨r.state, r.events, some e⟩
    | .ok children =>
      ⟨{ r.state with propVals := r.state.propVals ++ children }, r.events, Option.none⟩

/-- `PropertyValueList.pop(index=-1)`: pop from a copy of the raw list,
`set(..., recreate=False)`, then pop the child at the same index. -/
def PropertyValueList.pop (cfg : PVLConf) (s : PVLState) (i : Int) : PVLRes :=
  match pyPop s.value i with
  | .error e => ⟨s, [], some e⟩
  | .ok (_, rest) =>
    let r := PropertyValueList.setRaw cfg s rest
    match r.raised with
    | some _ => r
    | Option.none =>
      match pyPop r.state.propVals i with
      | .error e => ⟨r.state, r.events, some e⟩
      | .ok (_, prest) =>
        ⟨{ r.state with propVals := prest }, r.events, Option.none⟩

/-- `PropertyValueList.move(from_, to)`: pop/insert on a copy of the raw
list, `set(..., recreate=False)`, then the identical pop/insert on the
child list — the moved child is the same object, listeners intact. -/
def PropertyValueList.move (cfg : PVLConf) (s : PVLState) (src dst : Int) :
    PVLRes :=
  match pyPop s.value src with
  | .error e => ⟨s, [], some e⟩
  | .ok (val, rest) =>
    let r := PropertyValueList.setRaw cfg s (pyInsert rest dst val)
    match r.raised with
    | some _ => r
    | Option.none =>
      match pyPop r.state.propVals src with
      | .error e => ⟨r.state, r.events, some e⟩
      | .ok (pval, prest) =>
        ⟨{ r.state with propVals := pyInsert prest dst pval }, r.events, Option.none⟩

/-- The `for idx, val in zip(indices, values): self.__propVals[idx].set(val)`
loop at the end of `__setitem__`. -/
def PropertyValueList.childSetLoop (cfg : PVLConf) :
    List (Int × PyVal) → PVLState → PVLRes
  | [], s => ⟨s, [], Option.none⟩
  | (i, v) :: rest, s =>
    let r := PropertyValueList.childSet cfg s i v
    match r.raised with
    | some e => ⟨r.state, r.events, some e⟩
    | Option.none =>
      let r2 := PropertyValueList.childSetLoop cfg rest r.state
      ⟨r2.state, r.events ++ r2.events, r2.raised⟩

/-- `PropertyValueList.__setitem__(key, values)`.
For a slice key: compute the selected indices, require
`len(indices) == len(values)` (else `ValueError`), assign into a copy of
the raw list, `set(..., recreate=False)`, then call each affected
child's own `set`.  For an int key the source wraps the value:
`indices = [key]; values = [values]`, and then `listVals[key] = values`
stores the singleton *list* at the position, while the child receives
the un-wrapped value. -/
def PropertyValueList.setItem (cfg : PVLConf) (s : PVLState) (values : PyVal) :
    PyKey → PVLRes
  | .int i =>
    match pyNormIdx i s.value.length with
    | .error e => ⟨s, [], some e⟩
    | .ok j =>
      let r := PropertyValueList.setRaw cfg s
        (s.value.set j (PyVal.cons values PyVal.nil))
      match r.raised with
      | some _ => r
      | Option.none =>
        let r2 := PropertyValueList.childSetLoop cfg [(i, values)] r.state
        ⟨r2.state, r.events ++ r2.events, r2.raised⟩
  | .slice st sp ste =>
    match pySliceIndices st sp ste s.value.length with
    | .error e => ⟨s, [], some e⟩
    | .ok idxs =>
      match values.toListOpt with
      | Option.none => ⟨s, [], some (.typeError "object has no len()")⟩
      | some vs =>
        if idxs.length ≠ vs.length then
          ⟨s, [], some (.valueError "PropertyValueList does not support complex slices")⟩
        else
          let r := PropertyValueList.setRaw cfg s (assignAt s.value (idxs.zip vs))
          match r.raised with
          | some _ => r
          | Option.none =>
            let r2 := PropertyValueList.childSetLoop cfg
              ((idxs.map (Int.ofNat)).zip vs) r.state
            ⟨r2.state, r.events ++ r2.events, r2.raised⟩

/-- `PropertyValueList.__delitem__(key)`: delete from a copy of the raw
list, `set(..., recreate=False)`, then apply the same deletion (with the
original key) to the child list. -/
def PropertyValueList.delItem (cfg : PVLConf) (s : PVLState) : PyKey → PVLRes
  | .int i =>
    match pyNormIdx i s.value.length with
    | .error e => ⟨s, [], some e⟩
    | .ok j =>
      let r := PropertyValueList.setRaw cfg s (removeAt s.value j)
      match r.raised with
      | some _ => r
      | Option.none =>
        match pyNormIdx i r.state.propVals.length with
        | .error e => ⟨r.state, r.events, some e⟩
        | .ok j2 =>
          ⟨{ r.state with propVals := removeAt r.state.propVals j2 },
           r.events, Option.none⟩
  | .slice st sp ste =>
    match pySliceIndices st sp ste s.value.length with
    | .error e => ⟨s, [], some e⟩
    | .ok idxs =>
      let r := PropertyValueList.setRaw cfg s (deleteAtIdxs s.value 0 idxs)
      match r.raised with
      | some _ => r
      | Option.none =>
        match pySliceIndices st sp ste r.state.propVals.length with
        | .error e => ⟨r.state, r.events, some e⟩
        | .ok idxs2 =>
          ⟨{ r.state with propVals := deleteAtIdxs r.state.propVals 0 idxs2 },
           r.events, Option.none⟩

/-- The mutating operations of `PropertyValueList` named by the
length-pairing invariant. -/
inductive PVLOp where
  | setAll (vs : List PyVal)
  | append (v : PyVal)
  | extend (vs : List PyVal)
  | pop (i : Int)
  | move (src dst : Int)
  | setItem (k : PyKey) (values : PyVal)
  | delItem (k : PyKey)

/-- Run one mutating operation. -/
def PVLOp.run (cfg : PVLConf) (s : PVLState) : PVLOp → PVLRes
  | .setAll vs => PropertyValueList.set cfg s vs
  | .append v => PropertyValueList.append cfg s v
  | .extend vs => PropertyValueList.extend cfg s vs
  | .pop i => PropertyValueList.pop cfg s i
  | .move src dst => PropertyValueList.move cfg s src dst
  | .setItem k values => PropertyValueList.setItem cfg s values k
  | .delItem k => PropertyValueList.delItem cfg s k

/-! ## The bounded list wrapper `_ListWrapper` (tkprop/properties.py)

The structural length bounds (`minlen` / `maxlen`) live here: every
mutating operation first checks the resulting length against the bound
and raises an `IndexError` before anything is touched. -/

/-- Configuration of a `_ListWrapper`: the label used in error messages,
the `_makeTkVar` item coercion/validation (raises `ValueError` on a bad
item), and the optional structural bounds. -/
structure LWConf where
  label : String
  makeVar : PyVal → Except String PyVal
  minlen : Option Nat
  maxlen : Option Nat

/-- The wrapped list `self._tkVars` (each entry holding its value). -/
structure LWState where
  tkVars : List PyVal
deriving DecidableEq, Repr

/-- `_ListWrapper._check_maxlen(change)`: raise `IndexError` if adding
`change` items would exceed `maxlen`. -/
def lwCheckMaxlen (cfg : LWConf) (s : LWState) (change : Nat) : Option PyErr :=
  match cfg.maxlen with
  | Option.none => Option.none
  | some m =>
    if s.tkVars.length + change > m then
      some (.indexError (cfg.label ++ " must have a length of at most " ++ toString m))
    else Option.none

/-- `_ListWrapper._check_minlen(change)`: raise `IndexError` if removing
`change` items would fall below `minlen` (the comparison is on Python
ints, hence over `Int`). -/
def lwCheckMinlen (cfg : LWConf) (s : LWState) (change : Nat) : Option PyErr :=
  match cfg.minlen with
  | Option.none => Option.none
  | some k =>
    if (s.tkVars.length : Int) - change < k then
      some (.indexError (cfg.label ++ " must have a length of at least " ++ toString k))
    else Option.none

/-- `_ListWrapper.append(item)`: check the maximum length, coerce the
item (`ValueError` on a bad item), then append. -/
def lwAppend (cfg : LWConf) (s : LWState) (item : PyVal) :
    LWState × Option PyErr :=
  match lwCheckMaxlen cfg s 1 with
  | some e => (s, some e)
  | Option.none =>
    match cfg.makeVar item with
    | .error msg => (s, some (.valueError msg))
    | .ok v => (⟨s.tkVars ++ [v]⟩, Option.none)

/-- The `for i in toAdd: self.append(i)` loop of `_ListWrapper.extend`. -/
def lwExtendLoop (cfg : LWConf) : List PyVal → LWState → LWState × Option PyErr
  | [], s => (s, Option.none)
  | v :: rest, s =>
    match lwAppend cfg s v with
    | (s1, some e) => (s1, some e)
    | (s1, Option.none) => lwExtendLoop cfg rest s1

/-- `_ListWrapper.extend(iterable)`: check the maximum length for the
whole batch up front, then append the items one by one. -/
def lwExtend (cfg : LWConf) (s : LWState) (items : List PyVal) :
    LWState × Option PyErr :=
  match lwCheckMaxlen cfg s items.length with
  | some e => (s, some e)
  | Option.none => lwExtendLoop cfg items s

/-- `_ListWrapper.pop()`: check the minimum length, then pop the last
element (`IndexError` on an empty list). -/
def lwPop (cfg : LWConf) (s : LWState) : LWState × Option PyErr :=
  match lwCheckMinlen cfg s 1 with
  | some e => (s, some e)
  | Option.none =>
    match pyPop s.tkVars ((s.tkVars.length : Int) - 1) with
    | .error e => (s, some e)
    | .ok (_, rest) => (⟨rest⟩, Option.none)

/-- `_ListWrapper.__delitem__(key)`: compute the selected indices, check
the minimum length for the whole removal, then delete. -/
def lwDelItem (cfg : LWConf) (s : LWState) : PyKey → LWState × Option PyErr
  | .int i =>
    match lwCheckMinlen cfg s 1 with
    | some e => (s, some e)
    | Option.none =>
      match pyNormIdx i s.tkVars.length with
      | .error e => (s, some e)
      | .ok j => (⟨removeAt s.tkVars j⟩, Option.none)
  | .slice st sp ste =>
    match pySliceIndices st sp ste s.tkVars.length with
    | .error e => (s, some e)
    | .ok idxs =>
      match lwCheckMinlen cfg s idxs.length with
      | some e => (s, some e)
      | Option.none => (⟨deleteAtIdxs s.tkVars 0 idxs⟩, Option.none)

/-! ## Helper lemmas about the notification pipeline and `set` -/

/-- The names called by the dispatch loop are exactly the names of the
snapshot it was given, in order — independent of the registry passed
alongside (which listeners mutate) and of which listeners raise. -/
theorem dispatchLoop_called (pvName : String)
    (snap : List (String × ListenerSpec)) (reg : Registry) :
    (dispatchLoop pvName snap reg).2.1 = snap.map Prod.fst := by
  induction snap generalizing reg with
  | nil => rfl
  | cons p rest ih =>
    cases p with
    | mk n spec => simp [dispatchLoop, ih]

/-- The events emitted by `PropertyValue._notify` are one call per
snapshot entry, in snapshot order, with the given value/validity. -/
theorem notify_events (cfg : PVConf) (reg : Registry) (v : PyVal) (b : Bool) :
    (PropertyValue.notify cfg reg v b).2 =
      (notifySnapshot cfg reg).map (fun p => PVEvent.call p.1 v b) := by
  unfold PropertyValue.notify
  rcases hd : dispatchLoop cfg.name (notifySnapshot cfg reg) reg with ⟨regF, called, logged⟩
  have h := dispatchLoop_called cfg.name (notifySnapshot cfg reg) reg
  rw [hd] at h
  simp only at h
  simp only [hd, h, List.map_map]
  rfl

/-- `setStore` when the change comparison fires: `lastValue`/`lastValid`
are updated and the pipeline runs. -/
theorem setStore_changed (cfg : PVConf) (s : PropertyValue) (v : PyVal)
    (valid : Bool)
    (h : (!(pyEq v s.lastValue) || (valid != s.lastValid)) = true) :
    (PropertyValue.setStore cfg s v valid).notified = true ∧
    (PropertyValue.setStore cfg s v valid).raised = Option.none ∧
    (PropertyValue.setStore cfg s v valid).state.value = v ∧
    (PropertyValue.setStore cfg s v valid).state.valid = valid ∧
    (PropertyValue.setStore cfg s v valid).state.lastValue = v ∧
    (PropertyValue.setStore cfg s v valid).state.lastValid = valid ∧
    (PropertyValue.setStore cfg s v valid).events =
      (notifySnapshot cfg s.listeners).map (fun p => PVEvent.call p.1 v valid) := by
  unfold PropertyValue.setStore
  dsimp only
  rw [h]
  rcases hn : PropertyValue.notify cfg s.listeners v valid with ⟨regF, evs⟩
  have he := notify_events cfg s.listeners v valid
  rw [hn] at he
  simp only at he
  simp [he]

/-- `setStore` when nothing changed: value/valid are still stored, but
`lastValue`/`lastValid`, the listeners and the outside world are
untouched. -/
theorem setStore_unchanged (cfg : PVConf) (s : PropertyValue) (v : PyVal)
    (valid : Bool)
    (h : (!(pyEq v s.lastValue) || (valid != s.lastValid)) = false) :
    PropertyValue.setStore cfg s v valid =
      ⟨{ s with value := v, valid := valid }, [], Option.none, false⟩ := by
  unfold PropertyValue.setStore
  dsimp only
  rw [h]
  rfl

/-- Unfolding `PropertyValue.set` on a successful cast: the result is
`setStore` at the cast value and computed validity, unless validation
failed with `allowInvalid=False`. -/
theorem set_eq_setStore_of_valid (cfg : PVConf) (s : PropertyValue)
    (v v' : PyVal) (hCast : castApply cfg v = .ok v')
    (hVal : validateApply cfg v' = Option.none) :
    PropertyValue.set cfg s v = PropertyValue.setStore cfg s v' true := by
  unfold PropertyValue.set
  split
  · rename_i e he
    rw [hCast] at he
    cases he
  · rename_i v2 he
    rw [hCast] at he
    injection he with he'
    subst he'
    split
    · rename_i msg hm
      rw [hVal] at hm
      cases hm
    · rfl



/-- Unfolding `PropertyValue.set` when validation fails but
`allowInvalid=True`: the invalid value is stored via `setStore`. -/
theorem set_eq_setStore_of_invalid (cfg : PVConf) (s : PropertyValue)
    (v v' : PyVal) (msg : String) (hAllow : cfg.allowInvalid = true)
    (hCast : castApply cfg v = .ok v')
    (hVal : validateApply cfg v' = some msg) :
    PropertyValue.set cfg s v = PropertyValue.setStore cfg s v' false := by
  unfold PropertyValue.set
  split
  · rename_i e he
    rw [hCast] at he
    cases he
  · rename_i v2 he
    rw [hCast] at he
    injection he with he'
    subst he'
    split
    · rename_i msg hm
      rw [hVal] at hm
      injection hm with hm'
      subst hm'
      rw [hAllow]
      rfl
    · rename_i hm
      rw [hVal] at hm
      cases hm

/-- C5: the notification pipeline calls the pre-notify hook (if
present), then every listener registered at dispatch start in
registration order, then the post-notify hook (if present), each exactly
once with the given value/validity; a raising listener does not prevent
any later call, and listeners added or removed during the dispatch do
not affect the in-progress dispatch (the events depend only on the
snapshot taken at dispatch start). -/
theorem fslpy_C5_notify_snapshot_order (cfg : PVConf) (reg : Registry)
    (v : PyVal) (b : Bool) :
    (PropertyValue.notify cfg reg v b).2 =
      (notifySnapshot cfg reg).map (fun p => PVEvent.call p.1 v b) :=
  notify_events cfg reg v b

/-- C2: with `allowInvalid=False`, a `set` whose cast value is rejected
by the validate function raises that validation error, leaves the stored
value and the valid flag (the whole state) unchanged, and invokes no
pre-hook, listener, or post-hook. -/
theorem fslpy_C2_reject_no_state_change (cfg : PVConf) (s : PropertyValue)
    (v v' : PyVal) (msg : String) (hAllow : cfg.allowInvalid = false)
    (hCast : castApply cfg v = .ok v')
    (hVal : validateApply cfg v' = some msg) :
    PropertyValue.set cfg s v = ⟨s, [], some (.valueError msg), false⟩ := by
  unfold PropertyValue.set
  split
  · rename_i e he
    rw [hCast] at he
    cases he
  · rename_i v2 he
    rw [hCast] at he
    injection he with he'
    subst he'
    split
    · rename_i msg2 hm
      rw [hVal] at hm
      injection hm with hm'
      subst hm'
      rw [hAllow]
      rfl
    · rename_i hm
      rw [hVal] at hm
      cases hm

/-- The validate function of the C2/C4 scenarios: accepts positive ints. -/
def requirePositive : PyVal → PyVal → Option String :=
  fun _ v =>
    match v with
    | .int n => if 0 < n then Option.none else some "must be positive"
    | _ => some "not an int"

/-- The cast function of the C4 scenario: `int()` — accepts ints,
raises `TypeError` otherwise. -/
def toInt : PyVal → PyVal → Except PyErr PyVal :=
  fun _ v =>
    match v with
    | .int n => .ok (.int n)
    | _ => .error (.typeError "int() argument must be a number")

/-- A `PropertyValue` configuration with `allowInvalid=False` and a
positivity validator. -/
def cfgStrict : PVConf :=
  ⟨"p", PyVal.none, Option.none, some requirePositive, Option.none, Option.none, false⟩

/-- A strict-config state holding the valid value `5`, with one
registered listener. -/
def stateStrict : PropertyValue :=
  ⟨.int 5, true, .int 5, true, [("L", ⟨false, []⟩)]⟩

theorem fslpy_C2_witness :
    PropertyValue.set cfgStrict stateStrict (.int (-1)) =
      ⟨stateStrict, [], some (.valueError "must be positive"), false⟩ :=
  fslpy_C2_reject_no_state_change cfgStrict stateStrict (.int (-1)) (.int (-1))
    "must be positive" rfl rfl rfl

/-- `validateApply` when a validate function is configured. -/
theorem validateApply_of_validateFunc (cfg : PVConf)
    (f : PyVal → PyVal → Option String) (v : PyVal)
    (hf : cfg.validateFunc = some f) :
    validateApply cfg v = f cfg.context v := by
  unfold validateApply
  rw [hf]

/-- `validateApply` when no validate function is configured. -/
theorem validateApply_none (cfg : PVConf) (v : PyVal)
    (hf : cfg.validateFunc = Option.none) :
    validateApply cfg v = Option.none := by
  unfold validateApply
  rw [hf]

/-- `isValid` when a validate function is configured. -/
theorem isValid_of_validateFunc (cfg : PVConf)
    (f : PyVal → PyVal → Option String) (s : PropertyValue)
    (hf : cfg.validateFunc = some f) :
    PropertyValue.isValid cfg s = (f cfg.context s.value).isNone := by
  unfold PropertyValue.isValid
  rw [hf]

/-- A `set` on a state whose `(lastValue, lastValid)` already equal the
cast value and its computed validity stores the fields again but does
not notify (the change comparison is by value). -/
theorem set_no_change_no_notify (cfg : PVConf) (s : PropertyValue)
    (v v' : PyVal) (b : Bool) (hCast : castApply cfg v = .ok v')
    (hValid : (validateApply cfg v').isNone = b)
    (hOk : cfg.allowInvalid = true ∨ validateApply cfg v' = Option.none)
    (hLast : s.lastValue = v') (hLastV : s.lastValid = b) :
    PropertyValue.set cfg s v =
      ⟨{ s with value := v', valid := b }, [], Option.none, false⟩ := by
  cases hv : validateApply cfg v' with
  | none =>
    rw [hv] at hValid
    simp only [Option.isNone_none] at hValid
    subst hValid
    rw [set_eq_setStore_of_valid cfg s v v' hCast hv]
    apply setStore_unchanged
    rw [hLast, hLastV, pyEq_refl]
    rfl
  | some msg =>
    rw [hv] at hValid
    simp only [Option.isNone_some] at hValid
    subst hValid
    rcases hOk with hA | hN
    · rw [set_eq_setStore_of_invalid cfg s v v' msg hA hCast hv]
      apply setStore_unchanged
      rw [hLast, hLastV, pyEq_refl]
      rfl
    · rw [hN] at hv
      cases hv

/-- C3: `set(v)` twice in a row (same cast result, same validity, no
intervening change): the first call — starting from a state whose
`(lastValue, lastValid)` differ from the incoming pair — runs the
notification pipeline; the second call finds `(value, valid)` equal to
`(lastValue, lastValid)` and returns without notifying. -/
theorem fslpy_C3_set_twice_notifies_once (cfg : PVConf) (s : PropertyValue)
    (v v' : PyVal) (hCast : castApply cfg v = .ok v')
    (hOk : cfg.allowInvalid = true ∨ validateApply cfg v' = Option.none)
    (hChanged : pyEq v' s.lastValue = false ∨
      (validateApply cfg v').isNone ≠ s.lastValid) :
    (PropertyValue.set cfg s v).notified = true ∧
    (PropertyValue.set cfg (PropertyValue.set cfg s v).state v).notified = false ∧
    (PropertyValue.set cfg (PropertyValue.set cfg s v).state v).events = [] := by
  have hch : (!(pyEq v' s.lastValue) ||
      ((validateApply cfg v').isNone != s.lastValid)) = true := by
    rcases hChanged with h | h
    · rw [h]
      rfl
    · cases hb : (validateApply cfg v').isNone <;>
        cases hl : s.lastValid <;> simp_all
  have hfirst :
      PropertyValue.set cfg s v =
        PropertyValue.setStore cfg s v' ((validateApply cfg v').isNone) := by
    cases hv : validateApply cfg v' with
    | none => exact set_eq_setStore_of_valid cfg s v v' hCast hv
    | some msg =>
      rcases hOk with hA | hN
      · exact set_eq_setStore_of_invalid cfg s v v' msg hA hCast hv
      · rw [hN] at hv
        cases hv
  obtain ⟨h1, h2, h3, h4, h5, h6, h7⟩ :=
    setStore_changed cfg s v' ((validateApply cfg v').isNone) hch
  refine ⟨by rw [hfirst]; exact h1, ?_⟩
  have hsecond := set_no_change_no_notify cfg
    (PropertyValue.set cfg s v).state v v' ((validateApply cfg v').isNone)
    hCast rfl hOk (by rw [hfirst]; exact h5) (by rw [hfirst]; exact h6)
  rw [hsecond]
  exact ⟨rfl, rfl⟩

/-- A `PropertyValue` configuration with no validate function and no
hooks. -/
def cfgNoVal : PVConf :=
  ⟨"p", PyVal.none, Option.none, Option.none, Option.none, Option.none, true⟩

/-- A state of `cfgNoVal` holding `0`, nothing notified yet. -/
def stateNoVal : PropertyValue :=
  ⟨.int 0, false, PyVal.none, false, []⟩

theorem fslpy_C3_witness :
    (PropertyValue.set cfgNoVal stateNoVal (.int 5)).notified = true ∧
    (PropertyValue.set cfgNoVal
      (PropertyValue.set cfgNoVal stateNoVal (.int 5)).state (.int 5)).notified
      = false ∧
    (PropertyValue.set cfgNoVal
      (PropertyValue.set cfgNoVal stateNoVal (.int 5)).state (.int 5)).events
      = [] :=
  fslpy_C3_set_twice_notifies_once cfgNoVal stateNoVal (.int 5) (.int 5)
    rfl (Or.inl rfl) (Or.inl rfl)

/-- C4: with `allowInvalid=True`, a `set` whose cast succeeds but whose
validation fails stores the invalid value anyway: `get()` returns it,
`isValid()` returns `False`, and the notification pipeline delivers to
every hook/listener in the dispatch snapshot exactly one call carrying
the new value and `valid=False`. -/
theorem fslpy_C4_invalid_value_stored (cfg : PVConf) (s : PropertyValue)
    (v v' : PyVal) (msg : String) (hAllow : cfg.allowInvalid = true)
    (hCast : castApply cfg v = .ok v')
    (hVal : validateApply cfg v' = some msg)
    (hChanged : pyEq v' s.lastValue = false ∨ s.lastValid = true) :
    (PropertyValue.set cfg s v).raised = Option.none ∧
    (PropertyValue.set cfg s v).state.value = v' ∧
    PropertyValue.isValid cfg (PropertyValue.set cfg s v).state = false ∧
    (PropertyValue.set cfg s v).events =
      (notifySnapshot cfg s.listeners).map (fun p => PVEvent.call p.1 v' false) := by
  have hch : (!(pyEq v' s.lastValue) || (false != s.lastValid)) = true := by
    rcases hChanged with h | h
    · rw [h]
      rfl
    · rw [h]
      simp
  rw [set_eq_setStore_of_invalid cfg s v v' msg hAllow hCast hVal]
  obtain ⟨h1, h2, h3, h4, h5, h6, h7⟩ := setStore_changed cfg s v' false hch
  refine ⟨h2, h3, ?_, h7⟩
  cases hf : cfg.validateFunc with
  | none =>
    rw [validateApply_none cfg v' hf] at hVal
    cases hVal
  | some f =>
    rw [isValid_of_validateFunc cfg f _ hf, h3]
    rw [validateApply_of_validateFunc cfg f v' hf] at hVal
    rw [hVal]
    rfl

/-- The configuration of the C4 scenario:
`PropertyValue(value=-1, castFunc=toInt, validateFunc=requirePositive,
allowInvalid=True)`. -/
def cfgC4 : PVConf :=
  ⟨"p", PyVal.none, some toInt, some requirePositive, Option.none, Option.none, true⟩

/-- The C4 state after construction with `-1` and registration of one
listener `L`. -/
def stateC4 : PropertyValue :=
  ⟨.int (-1), false, PyVal.none, false, [("PropertyValue_p_L", ⟨false, []⟩)]⟩

theorem fslpy_C4_witness :
    (PropertyValue.set cfgC4 stateC4 (.int (-1))).raised = Option.none ∧
    (PropertyValue.set cfgC4 stateC4 (.int (-1))).state.value = .int (-1) ∧
    PropertyValue.isValid cfgC4 (PropertyValue.set cfgC4 stateC4 (.int (-1))).state
      = false ∧
    (PropertyValue.set cfgC4 stateC4 (.int (-1))).events =
      (notifySnapshot cfgC4 stateC4.listeners).map
        (fun p => PVEvent.call p.1 (.int (-1)) false) :=
  fslpy_C4_invalid_value_stored cfgC4 stateC4 (.int (-1)) (.int (-1))
    "must be positive" rfl rfl rfl (Or.inl rfl)

/-- C10: constructed without a `validateFunc`, `isValid()` always
returns `False` (the call to the absent validator raises and the bare
`except` swallows it), while `set` always computes `valid=True`, never
raises a validation error, and — when it notifies — notifies with
`valid=True`: the read-only probe permanently disagrees with the cached
flag. -/
theorem fslpy_C10_isValid_false_without_validator (cfg : PVConf)
    (s : PropertyValue) (hNoVal : cfg.validateFunc = Option.none) :
    PropertyValue.isValid cfg s = false ∧
    ∀ v v', castApply cfg v = .ok v' →
      (PropertyValue.set cfg s v).raised = Option.none ∧
      (PropertyValue.set cfg s v).state.valid = true ∧
      ∀ e ∈ (PropertyValue.set cfg s v).events, ∃ n, e = PVEvent.call n v' true := by
  constructor
  · unfold PropertyValue.isValid
    rw [hNoVal]
  · intro v v' hCast
    have hv : validateApply cfg v' = Option.none := by
      unfold validateApply
      rw [hNoVal]
    rw [set_eq_setStore_of_valid cfg s v v' hCast hv]
    cases hch : (!(pyEq v' s.lastValue) || (true != s.lastValid)) with
    | true =>
      obtain ⟨h1, h2, h3, h4, h5, h6, h7⟩ := setStore_changed cfg s v' true hch
      refine ⟨h2, h4, ?_⟩
      intro e he
      rw [h7] at he
      simp only [List.mem_map] at he
      obtain ⟨p, -, rfl⟩ := he
      exact ⟨p.1, rfl⟩
    | false =>
      rw [setStore_unchanged cfg s v' true hch]
      exact ⟨rfl, rfl, by intro e he; cases he⟩

theorem fslpy_C10_witness :
    PropertyValue.isValid cfgNoVal stateNoVal = false ∧
    (PropertyValue.set cfgNoVal stateNoVal (.int 7)).raised = Option.none ∧
    (PropertyValue.set cfgNoVal stateNoVal (.int 7)).state.valid = true :=
  ⟨(fslpy_C10_isValid_false_without_validator cfgNoVal stateNoVal rfl).1,
   ((fslpy_C10_isValid_false_without_validator cfgNoVal stateNoVal rfl).2
     (.int 7) (.int 7) rfl).1,
   ((fslpy_C10_isValid_false_without_validator cfgNoVal stateNoVal rfl).2
     (.int 7) (.int 7) rfl).2.1⟩

/-! ## Concrete `PropertyValueList` scenarios -/

/-- A `PropertyValueList` configuration with no cast/validate functions
and no hooks. -/
def cfgPlainList : PVLConf :=
  ⟨"lst", PyVal.none, Option.none, Option.none, Option.none, Option.none,
   Option.none, true⟩

/-- The state of a plain `PropertyValueList` constructed with values
`[1, 2, 3]`, after registering the list-level listener `L`. -/
def stateListL : PVLState :=
  ⟨[.int 1, .int 2, .int 3], true, PyVal.ofList [.int 1, .int 2, .int 3], true,
   [("L", ⟨false, []⟩)],
   [⟨.int 1, false, PyVal.none, false, []⟩,
    ⟨.int 2, false, PyVal.none, false, []⟩,
    ⟨.int 3, false, PyVal.none, false, []⟩]⟩

/-- C6: editing a single element through the child's own `set` does
re-trigger the parent's `revalidate` (the child's `postNotifyFunc`), but
the child's `set` never writes the new value back into the parent's raw
list, so the parent's compare step sees an unchanged `(value, valid)`
pair and fires **no** list-level notification: after setting element 1
of `[1,2,3]` to `5`, the child holds `5`, the parent's raw values still
read `[1,2,3]`, no error is raised, and no event at all reaches the
registered list listener `L` (the child itself has no listeners). -/
theorem fslpy_C6_child_edit_no_list_notification :
    (PropertyValueList.childSet cfgPlainList stateListL 1 (.int 5)).raised
      = Option.none ∧
    ((PropertyValueList.childSet cfgPlainList stateListL 1 (.int 5)).state.propVals.get? 1).map
      (fun c => c.value) = some (.int 5) ∧
    (PropertyValueList.childSet cfgPlainList stateListL 1 (.int 5)).state.value
      = [.int 1, .int 2, .int 3] ∧
    (PropertyValueList.childSet cfgPlainList stateListL 1 (.int 5)).events = [] :=
  ⟨rfl, rfl, rfl, rfl⟩

/-- The state of a plain `PropertyValueList` holding `[1, 2, 3]` whose
element-1 child `PropertyValue` carries a registered listener `CL`. -/
def stateListChildL : PVLState :=
  ⟨[.int 1, .int 2, .int 3], true, PyVal.ofList [.int 1, .int 2, .int 3], true,
   [],
   [⟨.int 1, false, PyVal.none, false, []⟩,
    ⟨.int 2, false, PyVal.none, false, [("CL", ⟨false, []⟩)]⟩,
    ⟨.int 3, false, PyVal.none, false, []⟩]⟩

/-- C9: `pvl[1] = 5` on values `[1,2,3]` (int key).  The child item at
position 1 is updated in place through its own `set` — it is not
recreated, its listener `CL` stays registered and is called with the new
value — but the raw value sequence receives the *singleton list* `[5]`
at position 1 (the int-key branch wraps `values = [values]` and assigns
`listVals[key] = values` without unwrapping), so the raw values and the
child values disagree. -/
theorem fslpy_C9_setitem_int_key_wraps_raw_value :
    (PropertyValueList.setItem cfgPlainList stateListChildL (.int 5) (.int 1)).raised
      = Option.none ∧
    (PropertyValueList.setItem cfgPlainList stateListChildL (.int 5) (.int 1)).state.value
      = [.int 1, PyVal.cons (.int 5) PyVal.nil, .int 3] ∧
    ((PropertyValueList.setItem cfgPlainList stateListChildL (.int 5) (.int 1)).state.propVals.get? 1).map
      (fun c => c.value) = some (.int 5) ∧
    ((PropertyValueList.setItem cfgPlainList stateListChildL (.int 5) (.int 1)).state.propVals.get? 1).map
      (fun c => c.listeners) = some [("CL", ⟨false, []⟩)] ∧
    (PropertyValueList.setItem cfgPlainList stateListChildL (.int 5) (.int 1)).events
      = [PVLEvent.itemCall "CL" (.int 5) true] :=
  ⟨rfl, rfl, rfl, rfl, rfl⟩


/-! ## Lemmas about `exceptMapM` and the list-level `set` -/

theorem exceptMapM_length {γ δ : Type} {f : γ → Except PyErr δ} :
    ∀ {vs : List γ} {ws : List δ}, exceptMapM f vs = .ok ws →
      ws.length = vs.length := by
  intro vs
  induction vs with
  | nil =>
    intro ws h
    injection h with h'
    rw [← h']
    rfl
  | cons a as ih =>
    intro ws h
    unfold exceptMapM at h
    split at h
    · cases h
    · split at h
      · cases h
      · rename_i b hb bs hbs
        injection h with h'
        rw [← h']
        simp [ih hbs]

theorem exceptMapM_mem {γ δ : Type} {f : γ → Except PyErr δ} :
    ∀ {vs : List γ} {ws : List δ}, exceptMapM f vs = .ok ws →
      ∀ v ∈ vs, ∃ w, f v = .ok w := by
  intro vs
  induction vs with
  | nil => intro ws _ v hv; cases hv
  | cons a as ih =>
    intro ws h v hv
    unfold exceptMapM at h
    split at h
    · cases h
    · rename_i b hb
      split at h
      · cases h
      · rename_i bs hbs
        cases hv with
        | head => exact ⟨b, hb⟩
        | tail _ hmem => exact ih hbs v hmem

theorem exceptMapM_ok_of_forall {γ δ : Type} {f : γ → Except PyErr δ} :
    ∀ {vs : List γ}, (∀ v ∈ vs, ∃ w, f v = .ok w) →
      ∃ ws, exceptMapM f vs = .ok ws := by
  intro vs
  induction vs with
  | nil => intro _; exact ⟨[], rfl⟩
  | cons a as ih =>
    intro h
    obtain ⟨b, hb⟩ := h a (List.mem_cons_self a as)
    obtain ⟨bs, hbs⟩ := ih (fun v hv => h v (List.mem_cons_of_mem a hv))
    refine ⟨b :: bs, ?_⟩
    unfold exceptMapM
    rw [hb, hbs]

/-- A successful list-level cast preserves the length. -/
theorem pvlCast_length {cfg : PVLConf} {vs ws : List PyVal}
    (h : pvlCast cfg vs = .ok ws) : ws.length = vs.length := by
  unfold pvlCast at h
  split at h
  · injection h with h'
    rw [← h']
  · exact exceptMapM_length h

/-- A successful list-level cast means every element casts. -/
theorem pvlCast_mem {cfg : PVLConf} {vs ws : List PyVal}
    (h : pvlCast cfg vs = .ok ws) :
    ∀ v ∈ vs, ∃ w, itemCastApply cfg v = .ok w := by
  unfold pvlCast at h
  intro v hv
  unfold itemCastApply
  split at h
  · exact ⟨v, rfl⟩
  · exact exceptMapM_mem h v hv

/-- `__newItem` succeeds exactly when the item cast succeeds, and builds
a fresh child. -/
theorem newItem_ok {cfg : PVLConf} {v w : PyVal}
    (h : itemCastApply cfg v = .ok w) :
    PropertyValueList.newItem cfg v = .ok ⟨w, false, PyVal.none, false, []⟩ := by
  unfold PropertyValueList.newItem
  rw [h]

/-- If the list-level cast of `vs` succeeds, rebuilding all child items
from `vs` succeeds, with one child per value. -/
theorem newItems_ok {cfg : PVLConf} {vs ws : List PyVal}
    (h : pvlCast cfg vs = .ok ws) :
    ∃ items, exceptMapM (PropertyValueList.newItem cfg) vs = .ok items ∧
      items.length = vs.length := by
  have hall : ∀ v ∈ vs, ∃ c, PropertyValueList.newItem cfg v = .ok c := by
    intro v hv
    obtain ⟨w, hw⟩ := pvlCast_mem h v hv
    exact ⟨_, newItem_ok hw⟩
  obtain ⟨items, hi⟩ := exceptMapM_ok_of_forall hall
  exact ⟨items, hi, exceptMapM_length hi⟩

/-- Both branches of `setRawStore` leave `__propVals` untouched, raise
nothing, and store the given values and validity. -/
theorem setRawStore_fields (cfg : PVLConf) (s : PVLState) (vs : List PyVal)
    (b : Bool) :
    (PropertyValueList.setRawStore cfg s vs b).raised = Option.none ∧
    (PropertyValueList.setRawStore cfg s vs b).state.value = vs ∧
    (PropertyValueList.setRawStore cfg s vs b).state.valid = b ∧
    (PropertyValueList.setRawStore cfg s vs b).state.propVals = s.propVals := by
  unfold PropertyValueList.setRawStore
  dsimp only
  split
  · exact ⟨rfl, rfl, rfl, rfl⟩
  · rcases hn : PropertyValueList.notify cfg s.listeners vs b s.propVals.length
      with ⟨regF, evs⟩
    exact ⟨rfl, rfl, rfl, rfl⟩

/-- `setRaw` either raises with the state (and the outside world)
untouched, or reduces to `setRawStore` at the cast values and the
computed validity. -/
theorem setRaw_cases (cfg : PVLConf) (s : PVLState) (vs : List PyVal) :
    (∃ e, PropertyValueList.setRaw cfg s vs = ⟨s, [], some e⟩) ∨
    (∃ ws, pvlCast cfg vs = .ok ws ∧
      PropertyValueList.setRaw cfg s vs =
        PropertyValueList.setRawStore cfg s ws (pvlValidate cfg ws).isNone) := by
  unfold PropertyValueList.setRaw
  split
  · rename_i e hc
    exact Or.inl ⟨e, rfl⟩
  · rename_i ws hc
    split
    · rename_i msg hv
      split
      · rename_i hA
        exact Or.inl ⟨.valueError msg, rfl⟩
      · refine Or.inr ⟨ws, hc, ?_⟩
        rw [hv, Option.isNone_some]
    · rename_i hv
      refine Or.inr ⟨ws, hc, ?_⟩
      rw [hv, Option.isNone_none]

/-- The item loop of the combined validator passes exactly when every
element passes. -/
theorem firstItemErr_none_iff (cfg : PVLConf) (vs : List PyVal) :
    firstItemErr cfg vs = Option.none ↔
      ∀ v ∈ vs, itemValidateApply cfg v = Option.none := by
  induction vs with
  | nil => simp [firstItemErr]
  | cons a as ih =>
    unfold firstItemErr
    cases ha : itemValidateApply cfg a with
    | some e => simp [ha]
    | none => simp [ha, ih]

/-- The combined validator passes exactly when the list-level check and
every item-level check pass. -/
theorem pvlValidate_none_iff (cfg : PVLConf) (vs : List PyVal) :
    pvlValidate cfg vs = Option.none ↔
      (listValidateApply cfg vs = Option.none ∧
       ∀ v ∈ vs, itemValidateApply cfg v = Option.none) := by
  unfold pvlValidate
  cases hl : listValidateApply cfg vs with
  | some e => simp [hl]
  | none => simp [hl, firstItemErr_none_iff]

/-- `setRaw` under a successful cast, when validation cannot abort. -/
theorem setRaw_ok_spec (cfg : PVLConf) (s : PVLState) (vs ws : List PyVal)
    (hCast : pvlCast cfg vs = .ok ws)
    (hOk : cfg.allowInvalid = true ∨ pvlValidate cfg ws = Option.none) :
    PropertyValueList.setRaw cfg s vs =
      PropertyValueList.setRawStore cfg s ws (pvlValidate cfg ws).isNone := by
  unfold PropertyValueList.setRaw
  split
  · rename_i e hc
    rw [hCast] at hc
    cases hc
  · rename_i ws2 hc
    rw [hCast] at hc
    injection hc with hc'
    subst hc'
    split
    · rename_i msg hv
      split
      · rename_i hA
        rcases hOk with h1 | h1
        · rw [h1] at hA
          cases hA
        · rw [h1] at hv
          cases hv
      · rw [hv, Option.isNone_some]
    · rename_i hv
      rw [hv, Option.isNone_none]

/-- `PropertyValueList.set` (whole-list set, `recreate=True`) under a
successful cast: the inherited `set` runs, then all child items are
rebuilt. -/
theorem pvlSet_ok_eq (cfg : PVLConf) (s : PVLState) (vs ws : List PyVal)
    (items : List PropertyValue)
    (hCast : pvlCast cfg vs = .ok ws)
    (hOk : cfg.allowInvalid = true ∨ pvlValidate cfg ws = Option.none)
    (hitems : exceptMapM (PropertyValueList.newItem cfg) vs = .ok items) :
    PropertyValueList.set cfg s vs =
      ⟨{ (PropertyValueList.setRawStore cfg s ws (pvlValidate cfg ws).isNone).state
          with propVals := items },
       (PropertyValueList.setRawStore cfg s ws (pvlValidate cfg ws).isNone).events,
       Option.none⟩ := by
  unfold PropertyValueList.set
  rw [setRaw_ok_spec cfg s vs ws hCast hOk]
  dsimp only
  split
  · rename_i e he
    rw [(setRawStore_fields cfg s ws _).1] at he
    cases he
  · split
    · rename_i e he
      rw [hitems] at he
      cases he
    · rename_i items2 h2
      rw [hitems] at h2
      injection h2 with h2'
      subst h2'
      rfl

/-- C8 (amended): on a whole-list `set`, the combined validator runs the
list-level check first and then the item-level check on every element in
order (stopping at the first failure), and afterwards the list's own
`valid` flag is true exactly when the list-level check *and* every
item-level check pass — item failures are folded into the parent's
boolean, not tracked only on the children. -/
theorem fslpy_C8_valid_flag_composition (cfg : PVLConf) (s : PVLState)
    (vs ws : List PyVal) (items : List PropertyValue)
    (hCast : pvlCast cfg vs = .ok ws)
    (hOk : cfg.allowInvalid = true ∨ pvlValidate cfg ws = Option.none)
    (hitems : exceptMapM (PropertyValueList.newItem cfg) vs = .ok items) :
    (PropertyValueList.set cfg s vs).raised = Option.none ∧
    (PropertyValueList.set cfg s vs).state.value = ws ∧
    ((PropertyValueList.set cfg s vs).state.valid = true ↔
      (listValidateApply cfg ws = Option.none ∧
       ∀ v ∈ ws, itemValidateApply cfg v = Option.none)) := by
  rw [pvlSet_ok_eq cfg s vs ws items hCast hOk hitems]
  obtain ⟨h1, h2, h3, h4⟩ := setRawStore_fields cfg s ws (pvlValidate cfg ws).isNone
  refine ⟨rfl, h2, ?_⟩
  have hv : ({ (PropertyValueList.setRawStore cfg s ws
      (pvlValidate cfg ws).isNone).state with propVals := items }).valid
      = (pvlValidate cfg ws).isNone := h3
  rw [hv, Option.isNone_iff_eq_none, pvlValidate_none_iff]

/-- The item validator of the C8 scenario (positivity), in
`PVLConf` form. -/
def cfgC8 : PVLConf :=
  ⟨"lst", PyVal.none, Option.none, some requirePositive,
   some (fun _ vs => if vs.length ≤ 3 then Option.none else some "too long"),
   Option.none, Option.none, true⟩

/-- A freshly constructed, still-empty `PropertyValueList` state. -/
def stateFreshList : PVLState :=
  ⟨[], false, PyVal.none, false, [], []⟩

/-- C8 counterexample: with a passing list-level check (length ≤ 3) and
a failing item-level check (`-2` not positive), a whole-list set stores
`valid = false` — the list's `valid` flag is *not* true exactly when
the list-level check passes. -/
theorem fslpy_C8_counterexample :
    listValidateApply cfgC8 [.int (-2)] = Option.none ∧
    (PropertyValueList.set cfgC8 stateFreshList [.int (-2)]).raised
      = Option.none ∧
    (PropertyValueList.set cfgC8 stateFreshList [.int (-2)]).state.valid
      = false :=
  ⟨rfl, rfl, rfl⟩

theorem fslpy_C8_witness :
    (PropertyValueList.set cfgC8 stateFreshList [.int 1, .int 2]).raised
      = Option.none ∧
    (PropertyValueList.set cfgC8 stateFreshList [.int 1, .int 2]).state.value
      = [.int 1, .int 2] ∧
    ((PropertyValueList.set cfgC8 stateFreshList [.int 1, .int 2]).state.valid
      = true ↔
      (listValidateApply cfgC8 [.int 1, .int 2] = Option.none ∧
       ∀ v ∈ [PyVal.int 1, PyVal.int 2],
         itemValidateApply cfgC8 v = Option.none)) :=
  fslpy_C8_valid_flag_composition cfgC8 stateFreshList [.int 1, .int 2]
    [.int 1, .int 2]
    [⟨.int 1, false, PyVal.none, false, []⟩, ⟨.int 2, false, PyVal.none, false, []⟩]
    rfl (Or.inl rfl) rfl

/-! ## The length-bound claims for `_ListWrapper` -/

theorem lwCheckMaxlen_some (cfg : LWConf) (s : LWState) (m change : Nat)
    (hmax : cfg.maxlen = some m) (h : s.tkVars.length + change > m) :
    lwCheckMaxlen cfg s change =
      some (.indexError (cfg.label ++ " must have a length of at most " ++ toString m)) := by
  unfold lwCheckMaxlen
  split
  · rename_i hm
    rw [hmax] at hm
    cases hm
  · rename_i m2 hm
    rw [hmax] at hm
    injection hm with hm'
    subst hm'
    rw [if_pos h]

theorem lwCheckMinlen_some (cfg : LWConf) (s : LWState) (k change : Nat)
    (hmin : cfg.minlen = some k) (h : (s.tkVars.length : Int) - change < k) :
    lwCheckMinlen cfg s change =
      some (.indexError (cfg.label ++ " must have a length of at least " ++ toString k)) := by
  unfold lwCheckMinlen
  split
  · rename_i hm
    rw [hmin] at hm
    cases hm
  · rename_i k2 hm
    rw [hmin] at hm
    injection hm with hm'
    subst hm'
    rw [if_pos h]

/-- C7: on a `_ListWrapper` with structural bounds, `append` and
`extend` raise an `IndexError` and leave the stored values unchanged
whenever the resulting length would exceed `maxlen`, and `pop` and
`__delitem__` raise an `IndexError` with no mutation whenever the
resulting length would drop below `minlen`. -/
theorem fslpy_C7_length_bounds (cfg : LWConf) (s : LWState) (m k : Nat)
    (hmax : cfg.maxlen = some m) (hmin : cfg.minlen = some k) :
    (∀ item, s.tkVars.length + 1 > m →
      (lwAppend cfg s item).1 = s ∧
      ∃ msg, (lwAppend cfg s item).2 = some (.indexError msg)) ∧
    (∀ items : List PyVal, s.tkVars.length + items.length > m →
      (lwExtend cfg s items).1 = s ∧
      ∃ msg, (lwExtend cfg s items).2 = some (.indexError msg)) ∧
    ((s.tkVars.length : Int) - 1 < k →
      (lwPop cfg s).1 = s ∧
      ∃ msg, (lwPop cfg s).2 = some (.indexError msg)) ∧
    (∀ i : Int, (s.tkVars.length : Int) - 1 < k →
      (lwDelItem cfg s (.int i)).1 = s ∧
      ∃ msg, (lwDelItem cfg s (.int i)).2 = some (.indexError msg)) ∧
    (∀ st sp ste idxs, pySliceIndices st sp ste s.tkVars.length = .ok idxs →
      (s.tkVars.length : Int) - idxs.length < k →
      (lwDelItem cfg s (.slice st sp ste)).1 = s ∧
      ∃ msg, (lwDelItem cfg s (.slice st sp ste)).2 = some (.indexError msg)) := by
  refine ⟨?_, ?_, ?_, ?_, ?_⟩
  · intro item h
    have hc := lwCheckMaxlen_some cfg s m 1 hmax h
    unfold lwAppend
    rw [hc]
    exact ⟨rfl, _, rfl⟩
  · intro items h
    have hc := lwCheckMaxlen_some cfg s m items.length hmax h
    unfold lwExtend
    rw [hc]
    exact ⟨rfl, _, rfl⟩
  · intro h
    have hc := lwCheckMinlen_some cfg s k 1 hmin h
    unfold lwPop
    rw [hc]
    exact ⟨rfl, _, rfl⟩
  · intro i h
    have hc := lwCheckMinlen_some cfg s k 1 hmin h
    simp only [lwDelItem]
    rw [hc]
    exact ⟨rfl, _, rfl⟩
  · intro st sp ste idxs hidx h
    have hc := lwCheckMinlen_some cfg s k idxs.length hmin h
    simp only [lwDelItem]
    split
    · rename_i e he
      rw [hidx] at he
      cases he
    · rename_i idxs2 he
      rw [hidx] at he
      injection he with he'
      subst he'
      split
      · rename_i e2 he2
        rw [hc] at he2
        injection he2 with he2'
        subst he2'
        exact ⟨rfl, _, rfl⟩
      · rename_i he2
        rw [hc] at he2
        cases he2

/-- A `_ListWrapper` configuration with bounds `minlen=1`, `maxlen=3`. -/
def cfgBounded : LWConf :=
  ⟨"mylist", fun v => .ok v, some 1, some 3⟩

/-- A bounded wrapper currently holding `[1, 2, 3]`. -/
def lw123 : LWState := ⟨[.int 1, .int 2, .int 3]⟩

/-- A bounded wrapper currently holding `[1]`. -/
def lw1 : LWState := ⟨[.int 1]⟩

theorem fslpy_C7_witness :
    ((lwAppend cfgBounded lw123 (.int 4)).1 = lw123 ∧
      ∃ msg, (lwAppend cfgBounded lw123 (.int 4)).2 = some (.indexError msg)) ∧
    ((lwPop cfgBounded lw1).1 = lw1 ∧
      ∃ msg, (lwPop cfgBounded lw1).2 = some (.indexError msg)) :=
  ⟨(fslpy_C7_length_bounds cfgBounded lw123 3 1 rfl rfl).1 (.int 4) (by decide),
   (fslpy_C7_length_bounds cfgBounded lw1 3 1 rfl rfl).2.2.1 (by decide)⟩

/-! ## The length pairing of `rawValues` and `propVals` (C1) -/

/-- `revalidate` preserves the length of both parallel sequences: it
either aborts with the state untouched, or re-stores a recast raw list
of the same length, leaving `__propVals` alone. -/
theorem revalidate_lengths (cfg : PVLConf) (x : PVLState) :
    (PropertyValueList.revalidate cfg x).state.propVals.length
      = x.propVals.length ∧
    (PropertyValueList.revalidate cfg x).state.value.length
      = x.value.length := by
  unfold PropertyValueList.revalidate
  rcases setRaw_cases cfg x x.value with ⟨e, heq⟩ | ⟨ws, hca, heq⟩
  · rw [heq]
    exact ⟨rfl, rfl⟩
  · rw [heq]
    obtain ⟨h1, h2, h3, h4⟩ := setRawStore_fields cfg x ws
      (pvlValidate cfg ws).isNone
    exact ⟨by rw [h4], by rw [h2, pvlCast_length hca]⟩

/-- The tail of a child `set` preserves the length of both parallel
sequences (the child list is updated in place; the parent `revalidate`
re-stores a recast raw list of the same length, or aborts leaving it
untouched). -/
theorem childStore_lengths (cfg : PVLConf) (s : PVLState) (j : Nat)
    (child : PropertyValue) (w : PyVal) (b : Bool) :
    (PropertyValueList.childStore cfg s j child w b).state.propVals.length
      = s.propVals.length ∧
    (PropertyValueList.childStore cfg s j child w b).state.value.length
      = s.value.length := by
  unfold PropertyValueList.childStore
  dsimp only
  split
  · exact ⟨List.length_set s.propVals j _, rfl⟩
  · rcases hd : dispatchLoop (cfg.name ++ "_Item") child.listeners child.listeners
      with ⟨creg, called, logged⟩
    constructor
    · have h := (revalidate_lengths cfg
        { s with propVals := s.propVals.set j ⟨w, b, w, b, creg⟩ }).1
      rw [List.length_set] at h
      exact h
    · exact (revalidate_lengths cfg
        { s with propVals := s.propVals.set j ⟨w, b, w, b, creg⟩ }).2

/-- A child item's `set` (with the parent-revalidate wiring) preserves
the length of both parallel sequences, whether it raises or not. -/
theorem childSet_lengths (cfg : PVLConf) (s : PVLState) (i : Int) (v : PyVal) :
    (PropertyValueList.childSet cfg s i v).state.propVals.length
      = s.propVals.length ∧
    (PropertyValueList.childSet cfg s i v).state.value.length
      = s.value.length := by
  unfold PropertyValueList.childSet
  split
  · exact ⟨rfl, rfl⟩
  · split
    · exact ⟨rfl, rfl⟩
    · split
      · exact ⟨rfl, rfl⟩
      · split
        · split
          · exact ⟨rfl, rfl⟩
          · exact childStore_lengths cfg s _ _ _ _
        · exact childStore_lengths cfg s _ _ _ _

/-- The `__setitem__` child loop preserves the length of both parallel
sequences, whether it raises part-way or not. -/
theorem childSetLoop_lengths (cfg : PVLConf) :
    ∀ (ups : List (Int × PyVal)) (s : PVLState),
    (PropertyValueList.childSetLoop cfg ups s).state.propVals.length
      = s.propVals.length ∧
    (PropertyValueList.childSetLoop cfg ups s).state.value.length
      = s.value.length := by
  intro ups
  induction ups with
  | nil => exact fun s => ⟨rfl, rfl⟩
  | cons p rest ih =>
    intro s
    cases p with
    | mk i v =>
      unfold PropertyValueList.childSetLoop
      dsimp only
      split
      · exact childSet_lengths cfg s i v
      · obtain ⟨hp, hv⟩ := childSet_lengths cfg s i v
        obtain ⟨hp2, hv2⟩ := ih (PropertyValueList.childSet cfg s i v).state
        exact ⟨hp2.trans hp, hv2.trans hv⟩

/-- The C1 postcondition relative to the pre-state `s`: afterwards the
two parallel sequences have equal lengths, and if the operation raised,
both lengths equal their pre-call lengths. -/
def C1Post (s : PVLState) (r : PVLRes) : Prop :=
  r.state.propVals.length = r.state.value.length ∧
  (∀ e, r.raised = some e →
    r.state.propVals.length = s.propVals.length ∧
    r.state.value.length = s.value.length)

theorem setAll_C1 (cfg : PVLConf) (s : PVLState) (vs : List PyVal)
    (hInv : s.propVals.length = s.value.length) :
    C1Post s (PropertyValueList.set cfg s vs) := by
  unfold PropertyValueList.set
  dsimp only
  rcases setRaw_cases cfg s vs with ⟨e, heq⟩ | ⟨ws, hca, heq⟩
  · rw [heq]
    exact ⟨hInv, fun e' _ => ⟨rfl, rfl⟩⟩
  · rw [heq]
    obtain ⟨h1, h2, h3, h4⟩ := setRawStore_fields cfg s ws (pvlValidate cfg ws).isNone
    split
    · rename_i e he
      rw [h1] at he
      cases he
    · split
      · rename_i e he
        obtain ⟨items, hit, hlen⟩ := newItems_ok hca
        rw [hit] at he
        cases he
      · rename_i items hit
        have hlen : items.length = vs.length := exceptMapM_length hit
        constructor
        · show items.length =
            (PropertyValueList.setRawStore cfg s ws
              (pvlValidate cfg ws).isNone).state.value.length
          rw [h2, pvlCast_length hca]
          exact hlen
        · intro e' he'
          cases he'

theorem append_C1 (cfg : PVLConf) (s : PVLState) (v : PyVal)
    (hInv : s.propVals.length = s.value.length) :
    C1Post s (PropertyValueList.append cfg s v) := by
  unfold PropertyValueList.append
  dsimp only
  rcases setRaw_cases cfg s (s.value ++ [v]) with ⟨e, heq⟩ | ⟨ws, hca, heq⟩
  · rw [heq]
    exact ⟨hInv, fun e' _ => ⟨rfl, rfl⟩⟩
  · rw [heq]
    obtain ⟨h1, h2, h3, h4⟩ := setRawStore_fields cfg s ws (pvlValidate cfg ws).isNone
    split
    · rename_i e he
      rw [h1] at he
      cases he
    · split
      · rename_i e he
        obtain ⟨w, hw⟩ := pvlCast_mem hca v (by simp)
        rw [newItem_ok hw] at he
        cases he
      · rename_i child hchild
        constructor
        · show ((PropertyValueList.setRawStore cfg s ws
              (pvlValidate cfg ws).isNone).state.propVals ++ [child]).length =
            (PropertyValueList.setRawStore cfg s ws
              (pvlValidate cfg ws).isNone).state.value.length
          rw [List.length_append, h4, h2, pvlCast_length hca, List.length_append]
          simp [hInv]
        · intro e' he'
          cases he'

theorem extend_C1 (cfg : PVLConf) (s : PVLState) (items : List PyVal)
    (hInv : s.propVals.length = s.value.length) :
    C1Post s (PropertyValueList.extend cfg s items) := by
  unfold PropertyValueList.extend
  dsimp only
  rcases setRaw_cases cfg s (s.value ++ items) with ⟨e, heq⟩ | ⟨ws, hca, heq⟩
  · rw [heq]
    exact ⟨hInv, fun e' _ => ⟨rfl, rfl⟩⟩
  · rw [heq]
    obtain ⟨h1, h2, h3, h4⟩ := setRawStore_fields cfg s ws (pvlValidate cfg ws).isNone
    have hall : ∀ it ∈ items, ∃ c, PropertyValueList.newItem cfg it = .ok c := by
      intro it hit
      obtain ⟨w, hw⟩ := pvlCast_mem hca it (List.mem_append_right _ hit)
      exact ⟨_, newItem_ok hw⟩
    obtain ⟨children, hch⟩ := exceptMapM_ok_of_forall hall
    have hchlen : children.length = items.length := exceptMapM_length hch
    split
    · rename_i e he
      rw [h1] at he
      cases he
    · split
      · rename_i e he
        rw [hch] at he
        cases he
      · rename_i children2 hch2
        rw [hch] at hch2
        injection hch2 with hch2'
        subst hch2'
        constructor
        · show ((PropertyValueList.setRawStore cfg s ws
              (pvlValidate cfg ws).isNone).state.propVals ++ children).length =
            (PropertyValueList.setRawStore cfg s ws
              (pvlValidate cfg ws).isNone).state.value.length
          rw [List.length_append, h4, h2, pvlCast_length hca, List.length_append,
            hchlen, hInv]
        · intro e' he'
          cases he'

theorem pop_C1 (cfg : PVLConf) (s : PVLState) (i : Int)
    (hInv : s.propVals.length = s.value.length) :
    C1Post s (PropertyValueList.pop cfg s i) := by
  unfold PropertyValueList.pop
  split
  · exact ⟨hInv, fun e' _ => ⟨rfl, rfl⟩⟩
  · rename_i x rest hpop
    dsimp only
    rcases setRaw_cases cfg s rest with ⟨e, heq⟩ | ⟨ws, hca, heq⟩
    · rw [heq]
      exact ⟨hInv, fun e' _ => ⟨rfl, rfl⟩⟩
    · rw [heq]
      obtain ⟨h1, h2, h3, h4⟩ := setRawStore_fields cfg s ws (pvlValidate cfg ws).isNone
      split
      · rename_i e he
        rw [h1] at he
        cases he
      · split
        · rename_i e he
          obtain ⟨y, r2, hy⟩ := pyPop_ok_of_length s.value
            ((PropertyValueList.setRawStore cfg s ws
              (pvlValidate cfg ws).isNone).state.propVals)
            (by rw [h4, hInv]) hpop
          rw [hy] at he
          cases he
        · rename_i y prest hpp
          have hl1 := pyPop_length hpp
          have hl2 := pyPop_length hpop
          rw [h4] at hl1
          constructor
          · show prest.length =
              (PropertyValueList.setRawStore cfg s ws
                (pvlValidate cfg ws).isNone).state.value.length
            rw [h2, pvlCast_length hca]
            omega
          · intro e' he'
            cases he'

theorem move_C1 (cfg : PVLConf) (s : PVLState) (src dst : Int)
    (hInv : s.propVals.length = s.value.length) :
    C1Post s (PropertyValueList.move cfg s src dst) := by
  unfold PropertyValueList.move
  split
  · exact ⟨hInv, fun e' _ => ⟨rfl, rfl⟩⟩
  · rename_i val rest hpop
    dsimp only
    rcases setRaw_cases cfg s (pyInsert rest dst val) with ⟨e, heq⟩ | ⟨ws, hca, heq⟩
    · rw [heq]
      exact ⟨hInv, fun e' _ => ⟨rfl, rfl⟩⟩
    · rw [heq]
      obtain ⟨h1, h2, h3, h4⟩ := setRawStore_fields cfg s ws (pvlValidate cfg ws).isNone
      split
      · rename_i e he
        rw [h1] at he
        cases he
      · split
        · rename_i e he
          obtain ⟨y, r2, hy⟩ := pyPop_ok_of_length s.value
            ((PropertyValueList.setRawStore cfg s ws
              (pvlValidate cfg ws).isNone).state.propVals)
            (by rw [h4, hInv]) hpop
          rw [hy] at he
          cases he
        · rename_i pval prest hpp
          have hl1 := pyPop_length hpp
          have hl2 := pyPop_length hpop
          rw [h4] at hl1
          constructor
          · show (pyInsert prest dst pval).length =
              (PropertyValueList.setRawStore cfg s ws
                (pvlValidate cfg ws).isNone).state.value.length
            rw [pyInsert_length, h2, pvlCast_length hca, pyInsert_length]
            omega
          · intro e' he'
            cases he'

theorem setItem_C1 (cfg : PVLConf) (s : PVLState) (values : PyVal) (key : PyKey)
    (hInv : s.propVals.length = s.value.length) :
    C1Post s (PropertyValueList.setItem cfg s values key) := by
  cases key with
  | int i =>
    simp only [PropertyValueList.setItem]
    split
    · exact ⟨hInv, fun e' _ => ⟨rfl, rfl⟩⟩
    · rename_i j hj
      rcases setRaw_cases cfg s (s.value.set j (PyVal.cons values PyVal.nil))
        with ⟨e, heq⟩ | ⟨ws, hca, heq⟩
      · rw [heq]
        exact ⟨hInv, fun e' _ => ⟨rfl, rfl⟩⟩
      · rw [heq]
        obtain ⟨h1, h2, h3, h4⟩ :=
          setRawStore_fields cfg s ws (pvlValidate cfg ws).isNone
        split
        · rename_i e he
          rw [h1] at he
          cases he
        · obtain ⟨hp, hv⟩ := childSetLoop_lengths cfg [(i, values)]
            (PropertyValueList.setRawStore cfg s ws
              (pvlValidate cfg ws).isNone).state
          have hvlen : (PropertyValueList.setRawStore cfg s ws
              (pvlValidate cfg ws).isNone).state.value.length = s.value.length := by
            rw [h2, pvlCast_length hca, List.length_set]
          have hplen : (PropertyValueList.setRawStore cfg s ws
              (pvlValidate cfg ws).isNone).state.propVals.length
              = s.propVals.length := by
            rw [h4]
          constructor
          · dsimp only
            omega
          · intro e' he'
            dsimp only
            constructor <;> omega
  | slice st sp ste =>
    simp only [PropertyValueList.setItem]
    split
    · exact ⟨hInv, fun e' _ => ⟨rfl, rfl⟩⟩
    · rename_i idxs hidx
      split
      · exact ⟨hInv, fun e' _ => ⟨rfl, rfl⟩⟩
      · rename_i vs hvs
        split
        · exact ⟨hInv, fun e' _ => ⟨rfl, rfl⟩⟩
        · rcases setRaw_cases cfg s (assignAt s.value (idxs.zip vs))
            with ⟨e, heq⟩ | ⟨ws, hca, heq⟩
          · rw [heq]
            exact ⟨hInv, fun e' _ => ⟨rfl, rfl⟩⟩
          · rw [heq]
            obtain ⟨h1, h2, h3, h4⟩ :=
              setRawStore_fields cfg s ws (pvlValidate cfg ws).isNone
            split
            · rename_i e he
              rw [h1] at he
              cases he
            · obtain ⟨hp, hv⟩ := childSetLoop_lengths cfg
                ((idxs.map (Int.ofNat)).zip vs)
                (PropertyValueList.setRawStore cfg s ws
                  (pvlValidate cfg ws).isNone).state
              have hvlen : (PropertyValueList.setRawStore cfg s ws
                  (pvlValidate cfg ws).isNone).state.value.length
                  = s.value.length := by
                rw [h2, pvlCast_length hca, assignAt_length]
              have hplen : (PropertyValueList.setRawStore cfg s ws
                  (pvlValidate cfg ws).isNone).state.propVals.length
                  = s.propVals.length := by
                rw [h4]
              constructor
              · dsimp only
                omega
              · intro e' he'
                dsimp only
                constructor <;> omega

theorem delItem_C1 (cfg : PVLConf) (s : PVLState) (key : PyKey)
    (hInv : s.propVals.length = s.value.length) :
    C1Post s (PropertyValueList.delItem cfg s key) := by
  cases key with
  | int i =>
    simp only [PropertyValueList.delItem]
    split
    · exact ⟨hInv, fun e' _ => ⟨rfl, rfl⟩⟩
    · rename_i j hj
      rcases setRaw_cases cfg s (removeAt s.value j)
        with ⟨e, heq⟩ | ⟨ws, hca, heq⟩
      · rw [heq]
        exact ⟨hInv, fun e' _ => ⟨rfl, rfl⟩⟩
      · rw [heq]
        obtain ⟨h1, h2, h3, h4⟩ :=
          setRawStore_fields cfg s ws (pvlValidate cfg ws).isNone
        split
        · rename_i e he
          rw [h1] at he
          cases he
        · split
          · rename_i e he
            rw [h4, hInv, hj] at he
            cases he
          · rename_i j2 hj2
            rw [h4, hInv, hj] at hj2
            injection hj2 with hj2'
            subst hj2'
            have hjlt : j < s.value.length := pyNormIdx_lt hj
            have hplt : j < (PropertyValueList.setRawStore cfg s ws
                (pvlValidate cfg ws).isNone).state.propVals.length := by
              rw [h4, hInv]
              exact hjlt
            constructor
            · show (removeAt (PropertyValueList.setRawStore cfg s ws
                  (pvlValidate cfg ws).isNone).state.propVals j).length =
                (PropertyValueList.setRawStore cfg s ws
                  (pvlValidate cfg ws).isNone).state.value.length
              rw [removeAt_length hplt, h4, h2, pvlCast_length hca,
                removeAt_length hjlt, hInv]
            · intro e' he'
              cases he'
  | slice st sp ste =>
    simp only [PropertyValueList.delItem]
    split
    · exact ⟨hInv, fun e' _ => ⟨rfl, rfl⟩⟩
    · rename_i idxs hidx
      rcases setRaw_cases cfg s (deleteAtIdxs s.value 0 idxs)
        with ⟨e, heq⟩ | ⟨ws, hca, heq⟩
      · rw [heq]
        exact ⟨hInv, fun e' _ => ⟨rfl, rfl⟩⟩
      · rw [heq]
        obtain ⟨h1, h2, h3, h4⟩ :=
          setRawStore_fields cfg s ws (pvlValidate cfg ws).isNone
        split
        · rename_i e he
          rw [h1] at he
          cases he
        · split
          · rename_i e he
            rw [h4, hInv, hidx] at he
            cases he
          · rename_i idxs2 hidx2
            rw [h4, hInv, hidx] at hidx2
            injection hidx2 with hidx2'
            subst hidx2'
            have hcong := deleteAtIdxs_length_congr
              ((PropertyValueList.setRawStore cfg s ws
                (pvlValidate cfg ws).isNone).state.propVals)
              s.value 0 idxs (by rw [h4, hInv])
            constructor
            · show (deleteAtIdxs (PropertyValueList.setRawStore cfg s ws
                  (pvlValidate cfg ws).isNone).state.propVals 0 idxs).length =
                (PropertyValueList.setRawStore cfg s ws
                  (pvlValidate cfg ws).isNone).state.value.length
              rw [hcong, h2, pvlCast_length hca]
            · intro e' he'
              cases he'

/-- A plain one-element `PropertyValueList` with a registered list
listener `L` and a consistent child list. -/
def stateList1 : PVLState :=
  ⟨[.int 1], true, PyVal.ofList [.int 1], true, [("L", ⟨false, []⟩)],
   [⟨.int 1, false, PyVal.none, false, []⟩]⟩

/-- An item cast accepting only Python lists. -/
def listsOnlyCast : PyVal → PyVal → Except PyErr PyVal :=
  fun _ v =>
    match v with
    | .nil => .ok PyVal.nil
    | .cons h t => .ok (.cons h t)
    | _ => .error (.typeError "expected a list")

/-- A `PropertyValueList` of lists (itemCastFunc rejects non-lists). -/
def cfgListsOnly : PVLConf :=
  ⟨"lol", PyVal.none, some listsOnlyCast, Option.none, Option.none,
   Option.none, Option.none, true⟩

/-- A one-element list-of-lists state holding `[[1]]`. -/
def stateListOfLists : PVLState :=
  ⟨[PyVal.cons (.int 1) PyVal.nil], true,
   PyVal.ofList [PyVal.cons (.int 1) PyVal.nil], true, [],
   [⟨PyVal.cons (.int 1) PyVal.nil, false, PyVal.none, false, []⟩]⟩

/-- C1 counterexample.  First part: during the list-level notification
fired by `append`, the raw value sequence is already grown while the
child item sequence is not — the listener `L` is called at a point where
`len(rawValues) = 2` but `len(items) = 1`, an externally observable
state in which the two sequences disagree.  Second part: the int-key
`__setitem__` is not atomic — with an item cast that rejects non-lists,
`pvl[0] = 5` first stores the wrapped singleton `[5]` into the raw
values (the whole-list cast accepts it), then raises while re-casting
`5` for the child, leaving the raw values changed. -/
theorem fslpy_C1_counterexample :
    ((PropertyValueList.append cfgPlainList stateList1 (.int 2)).events
        = [PVLEvent.listCall "L" [.int 1, .int 2] true 2 1] ∧
      (2 : Nat) ≠ 1) ∧
    ((PropertyValueList.setItem cfgListsOnly stateListOfLists (.int 5) (.int 0)).raised
        = some (.typeError "expected a list") ∧
      (PropertyValueList.setItem cfgListsOnly stateListOfLists (.int 5) (.int 0)).state.value
        = [PyVal.cons (.int 5) PyVal.nil] ∧
      stateListOfLists.value = [PyVal.cons (.int 1) PyVal.nil]) :=
  ⟨⟨rfl, by decide⟩, rfl, rfl, rfl⟩

/-- C1 (amended): for every mutating operation (whole-list set, append,
extend, pop, move, `__setitem__`, `__delitem__`), starting from a state
in which the two parallel sequences have equal lengths, afterwards the
number of child `PropertyValue` items again equals the number of raw
values; and when the operation raises, both sequences have their
pre-call lengths. -/
theorem fslpy_C1_length_pairing (cfg : PVLConf) (s : PVLState) (op : PVLOp)
    (hInv : s.propVals.length = s.value.length) :
    ((op.run cfg s).state.propVals.length = (op.run cfg s).state.value.length) ∧
    (∀ e, (op.run cfg s).raised = some e →
      (op.run cfg s).state.propVals.length = s.propVals.length ∧
      (op.run cfg s).state.value.length = s.value.length) := by
  cases op with
  | setAll vs => exact setAll_C1 cfg s vs hInv
  | append v => exact append_C1 cfg s v hInv
  | extend vs => exact extend_C1 cfg s vs hInv
  | pop i => exact pop_C1 cfg s i hInv
  | move src dst => exact move_C1 cfg s src dst hInv
  | setItem k values => exact setItem_C1 cfg s values k hInv
  | delItem k => exact delItem_C1 cfg s k hInv

theorem fslpy_C1_witness :
    ((PVLOp.append (.int 4)).run cfgPlainList stateListL).state.propVals.length
      = ((PVLOp.append (.int 4)).run cfgPlainList stateListL).state.value.length :=
  (fslpy_C1_length_pairing cfgPlainList stateListL (.append (.int 4)) rfl).1
